import Mathlib

/-!
NVIDIA ROM parser: a shallow embedding of `nvidia_rom_parser.cpp`.

The ROM image (`romData`, a `std::vector<uint8_t>`) is a `List Byte`.  Every
`romData[i]` of the source is a `readU8`: inside the buffer it yields the byte,
past the end it yields `.error i`, the index of the out-of-bounds read (undefined
behaviour in the source).  `size_t` arithmetic that can wrap is taken modulo
`2 ^ 64`.
-/

set_option autoImplicit false

deriving instance DecidableEq for Except

namespace NVIDIAROMParser

/-- One `uint8_t` of the image. -/
abbrev Byte := Fin 256

/-- Largest `size_t`; `findBITHeader` returns it for "not found". -/
def SIZE_MAX : Nat := 2 ^ 64 - 1

/-- The value of `sizeof(BITHeader)` in the packed layout: 2 + 4 + 2 + 1 + 1 + 1 + 1. -/
def sizeofBITHeader : Nat := 12

/-- The value of `sizeof(BITToken)` in the packed layout: 1 + 1 + 2 + 2. -/
def sizeofBITToken : Nat := 6

/-- The access `romData[i]`: the byte, or `.error i` when `i` is past the end. -/
def readU8 (rom : List Byte) (i : Nat) : Except Nat Nat :=
  match rom[i]? with
  | some b => .ok b.val
  | none => .error i

/-- A `uint16_t` field at byte offset `i`, little-endian. -/
def readU16 (rom : List Byte) (i : Nat) : Except Nat Nat := do
  let lo ← readU8 rom i
  let hi ← readU8 rom (i + 1)
  pure (lo + 256 * hi)

/-- A `uint32_t` field at byte offset `i`, little-endian. -/
def readU32 (rom : List Byte) (i : Nat) : Except Nat Nat := do
  let b0 ← readU8 rom i
  let b1 ← readU8 rom (i + 1)
  let b2 ← readU8 rom (i + 2)
  let b3 ← readU8 rom (i + 3)
  pure (b0 + 256 * b1 + 65536 * b2 + 16777216 * b3)

/-! ## findPCIExpansionROM -/

/-- Body of the loop of `findPCIExpansionROM` at offset `i`: `true` when the
source executes `return i`. -/
def pciCandidate (rom : List Byte) (i : Nat) : Except Nat Bool := do
  let b0 ← readU8 rom i
  if b0 = 0x55 then
    let b1 ← readU8 rom (i + 1)
    if b1 = 0xAA then
      if i + 25 < rom.length then
        let pcirOffset ← readU16 rom (i + 24)
        if i + pcirOffset + 4 < rom.length then
          let c0 ← readU8 rom (i + pcirOffset)
          let c1 ← readU8 rom (i + pcirOffset + 1)
          let c2 ← readU8 rom (i + pcirOffset + 2)
          let c3 ← readU8 rom (i + pcirOffset + 3)
          pure (c0 = 0x50 ∧ c1 = 0x43 ∧ c2 = 0x49 ∧ c3 = 0x52 : Bool)
        else pure false
      else pure false
    else pure false
  else pure false

/-- The loop `for (i = 0; i < romData.size() - 1; i += 512)`; `bound` is
`romData.size() - 1` as a `size_t`, the first argument bounds the number of
iterations. -/
def findPCILoop (rom : List Byte) (bound : Nat) : Nat → Nat → Except Nat Nat
  | 0, _ => .ok 0
  | n + 1, i =>
    if i < bound then do
      let hit ← pciCandidate rom i
      if hit then pure i else findPCILoop rom bound n (i + 512)
    else .ok 0

/-- The method `findPCIExpansionROM`. -/
def findPCIExpansionROM (rom : List Byte) : Except Nat Nat :=
  let bound := (rom.length + 2 ^ 64 - 1) % 2 ^ 64
  findPCILoop rom bound (bound / 512 + 1) 0

/-! ## findBITHeader -/

/-- The checksum loop `for (j = 0; j < headerSize; ++j) sum += romData[i + j]`
with a `uint8_t` accumulator; the first numeric argument is the number of
iterations left. -/
def headerSum (rom : List Byte) (i : Nat) : Nat → Nat → Nat → Except Nat Nat
  | 0, _, sum => .ok sum
  | n + 1, j, sum => do
    let b ← readU8 rom (i + j)
    headerSum rom i n (j + 1) ((sum + b) % 256)

/-- Body of the loop of `findBITHeader` at offset `i`: `true` when the source
executes `return i`.  The fields of the `BITHeader` overlaid at `i` are read
one by one, `&&` short-circuits. -/
def bitCandidate (rom : List Byte) (i : Nat) : Except Nat Bool := do
  let id ← readU16 rom i
  if id = 0xB8FF then
    let signature ← readU32 rom (i + 2)
    if signature = 0x00544942 then
      let headerSize ← readU8 rom (i + 8)
      let sum ← headerSum rom i headerSize 0 0
      pure (sum = 0 : Bool)
    else pure false
  else pure false

/-- The loop `for (i = startOffset; i <= romData.size() - sizeof(BITHeader); ++i)`;
`bound` is the `size_t` value of `romData.size() - sizeof(BITHeader)`, the first
argument bounds the number of iterations.  (`++i` cannot wrap: the reads at `i`
succeeded, so `i` is an index of the buffer.) -/
def findBITHeaderLoop (rom : List Byte) (bound : Nat) : Nat → Nat → Except Nat Nat
  | 0, _ => .ok SIZE_MAX
  | n + 1, i =>
    if i ≤ bound then do
      let hit ← bitCandidate rom i
      if hit then pure i else findBITHeaderLoop rom bound n (i + 1)
    else .ok SIZE_MAX

/-- The method `findBITHeader`; the subtraction is unsigned, so it wraps for a
buffer shorter than `sizeof(BITHeader)`. -/
def findBITHeader (rom : List Byte) (startOffset : Nat) : Except Nat Nat :=
  let bound := (rom.length + 2 ^ 64 - sizeofBITHeader) % 2 ^ 64
  findBITHeaderLoop rom bound (bound + 1 - startOffset) startOffset

/-! ## readString -/

/-- The literal `"NULL"` as characters. -/
def nullString : List Byte := [0x4E, 0x55, 0x4C, 0x4C]

/-- The loop `for (i = offset; i < romData.size() && i < offset + maxLength; ++i)`
of `readString`, `limit` being `offset + maxLength`; the first argument bounds
the number of iterations. -/
def readStringLoop (rom : List Byte) (limit : Nat) : Nat → Nat → List Byte → List Byte
  | 0, _, result => result
  | n + 1, i, result =>
    if h : i < rom.length then
      if i < limit then
        if rom[i] = 0 then result
        else readStringLoop rom limit n (i + 1) (result ++ [rom[i]])
      else result
    else result

/-- The method `readString` (`offset` a `uint16_t`, `maxLength` a `uint8_t`);
the result is the `std::string` as a list of characters. -/
def readString (rom : List Byte) (offset maxLength : Nat) : List Byte :=
  if offset = 0 ∨ offset ≥ rom.length then nullString
  else
    let result := readStringLoop rom (offset + maxLength) maxLength offset []
    if result = [] then nullString else result

/-! ## The report

`output(text)` appends `text` to the report.  The report is kept as the list of
the `output` calls made, one constructor per call site, and `Out.render` gives
the text of each call. -/

/-- The fields printed from a `BIOSData_v1`. -/
structure BIOSData_v1 where
  biosVersion : Nat
  biosOEMVersion : Nat
  biosChecksum : Nat
  int15PostCallbacks : Nat
  int15SystemCallbacks : Nat
  biosBoardId : Nat
  frameCount : Nat
  biosmodDate : Nat
  deriving DecidableEq, Repr

/-- The fields printed from a `BIOSData_v2` (`reserved` is never read). -/
structure BIOSData_v2 where
  biosVersion : Nat
  biosOEMVersion : Nat
  biosChecksum : Nat
  int15PostCallbacks : Nat
  int15SystemCallbacks : Nat
  frameCount : Nat
  maxHeadsAtPost : Nat
  memorySizeReport : Nat
  hScaleFactor : Nat
  vScaleFactor : Nat
  dataTablePointer : Nat
  rompacksPointer : Nat
  appliedRompacksPointer : Nat
  appliedRompackMax : Nat
  appliedRompackCount : Nat
  moduleMapExternal0 : Nat
  compressionInfoPointer : Nat
  deriving DecidableEq, Repr

/-- One `output` call of the parser. -/
inductive Out where
  | banner
  | bannerRule
  | file (name : String)
  | size (n : Nat)
  | pciRomOffset (offset : Nat)
  | bitNotFound
  | bitFound (offset : Nat)
  | bitHeaderTitle
  | bitHeaderFields (id : Nat) (signature : List Nat)
      (bcdVersion headerSize tokenSize tokenEntries checksum : Nat)
  | bitTokensTitle
  | tokenBeyond (i : Nat)
  | tokenTitle (i : Nat) (name : String) (id : Nat)
  | dataVersion (v : Nat)
  | dataSize (s : Nat)
  | dataPointer (p : Nat)
  | biosDataLabel (version : Nat)
  | biosDataV1 (d : BIOSData_v1)
  | biosDataV2 (d : BIOSData_v2)
  | stringPtrsLabel (version : Nat)
  | stringLine (label : String) (s : List Byte)
  | nop
  | genericLabel (tokenName : String)
  | rawDataLabel
  | hexDump (data : List Byte) (pfx : String)
  | beyondBoundary
  | noData
  | newline
  deriving DecidableEq, Repr

/-- The map `tokenNames`. -/
def tokenNames : List (Nat × String) :=
  [ (0x32, "BIT_TOKEN_I2C_PTRS"), (0x41, "BIT_TOKEN_DAC_PTRS"),
    (0x42, "BIT_TOKEN_BIOSDATA"), (0x43, "BIT_TOKEN_CLOCK_PTRS"),
    (0x44, "BIT_TOKEN_DFP_PTRS"), (0x49, "BIT_TOKEN_NVINIT_PTRS"),
    (0x4C, "BIT_TOKEN_LVDS_PTRS"), (0x4D, "BIT_TOKEN_MEMORY_PTRS"),
    (0x4E, "BIT_TOKEN_NOP"), (0x50, "BIT_TOKEN_PERF_PTRS"),
    (0x52, "BIT_TOKEN_BRIDGE_FW_DATA"), (0x53, "BIT_TOKEN_STRING_PTRS"),
    (0x54, "BIT_TOKEN_TMDS_PTRS"), (0x55, "BIT_TOKEN_DISPLAY_PTRS"),
    (0x56, "BIT_TOKEN_VIRTUAL_PTRS"), (0x63, "BIT_TOKEN_32BIT_PTRS"),
    (0x64, "BIT_TOKEN_DP_PTRS"), (0x70, "BIT_TOKEN_FALCON_DATA"),
    (0x75, "BIT_TOKEN_UEFI_DATA"), (0x78, "BIT_TOKEN_MXM_DATA") ]

/-- The lookup `tokenNames.count(id) ? tokenNames[id] : "UNKNOWN_TOKEN"` of `parse`. -/
def tokenName (id : Nat) : String :=
  match tokenNames.lookup id with
  | some name => name
  | none => "UNKNOWN_TOKEN"

/-! ## dumpHex -/

/-- One lowercase hexadecimal digit. -/
def hexDigit (d : Nat) : Char := Nat.digitChar d

/-- A byte under `std::hex << std::setfill('0') << std::setw(2)`, followed by the space. -/
def hexGroup (b : Byte) : String :=
  String.mk [hexDigit (b.val / 16), hexDigit (b.val % 16), ' ']

/-- The loop of `dumpHex` from index `i` on, as the list of its `output` calls. -/
def dumpHexLoop (pfx : String) : List Byte → Nat → List String
  | [], _ => []
  | b :: rest, i =>
    (if i % 16 = 0 ∧ i > 0 then ["\n"] else []) ++
    (if i % 16 = 0 then [pfx] else []) ++
    [hexGroup b] ++ dumpHexLoop pfx rest (i + 1)

/-- The method `dumpHex`, as the list of its `output` calls. -/
def dumpHex (data : List Byte) (pfx : String) : List String :=
  dumpHexLoop pfx data 0 ++ ["\n"]

/-! ## Payload decoders

An out-of-bounds read stops the program where it happens.  A decoder returns
the outputs it made up to there together with the index read (`some i`);
`none` in the second component means it ran to its end. -/

/-- The fields of the `BIOSData_v1` overlaid at `p`, read in the order they are
printed; the 24-bit bit-field `biosmodDate` occupies the three bytes from `p + 14`. -/
def readBIOSData_v1 (rom : List Byte) (p : Nat) : Except Nat BIOSData_v1 := do
  let biosVersion ← readU32 rom p
  let biosOEMVersion ← readU8 rom (p + 4)
  let biosChecksum ← readU8 rom (p + 5)
  let int15PostCallbacks ← readU16 rom (p + 6)
  let int15SystemCallbacks ← readU16 rom (p + 8)
  let biosBoardId ← readU16 rom (p + 10)
  let frameCount ← readU16 rom (p + 12)
  let d0 ← readU8 rom (p + 14)
  let d1 ← readU8 rom (p + 15)
  let d2 ← readU8 rom (p + 16)
  pure { biosVersion, biosOEMVersion, biosChecksum, int15PostCallbacks,
         int15SystemCallbacks, biosBoardId, frameCount,
         biosmodDate := d0 + 256 * d1 + 65536 * d2 }

/-- The fields of the `BIOSData_v2` overlaid at `p`, read in the order they are printed. -/
def readBIOSData_v2 (rom : List Byte) (p : Nat) : Except Nat BIOSData_v2 := do
  let biosVersion ← readU32 rom p
  let biosOEMVersion ← readU8 rom (p + 4)
  let biosChecksum ← readU8 rom (p + 5)
  let int15PostCallbacks ← readU16 rom (p + 6)
  let int15SystemCallbacks ← readU16 rom (p + 8)
  let frameCount ← readU16 rom (p + 10)
  let maxHeadsAtPost ← readU8 rom (p + 16)
  let memorySizeReport ← readU8 rom (p + 17)
  let hScaleFactor ← readU8 rom (p + 18)
  let vScaleFactor ← readU8 rom (p + 19)
  let dataTablePointer ← readU16 rom (p + 20)
  let rompacksPointer ← readU16 rom (p + 22)
  let appliedRompacksPointer ← readU16 rom (p + 24)
  let appliedRompackMax ← readU8 rom (p + 26)
  let appliedRompackCount ← readU8 rom (p + 27)
  let moduleMapExternal0 ← readU8 rom (p + 28)
  let compressionInfoPointer ← readU32 rom (p + 29)
  pure { biosVersion, biosOEMVersion, biosChecksum, int15PostCallbacks,
         int15SystemCallbacks, frameCount, maxHeadsAtPost, memorySizeReport,
         hScaleFactor, vScaleFactor, dataTablePointer, rompacksPointer,
         appliedRompacksPointer, appliedRompackMax, appliedRompackCount,
         moduleMapExternal0, compressionInfoPointer }

/-- The value of `sizeof(BIOSData_v2)` in the packed layout. -/
def sizeofBIOSData_v2 : Nat := 33

/-- The value of `sizeof(StringPtrs_v1)` in the packed layout. -/
def sizeofStringPtrs_v1 : Nat := 15

/-- The value of `sizeof(StringPtrs_v2)` in the packed layout. -/
def sizeofStringPtrs_v2 : Nat := 21

/-- The method `parseBIOSData`.  `sizeofBIOSData_v1` is a parameter: the size of
a packed struct ending in a 24-bit bit-field depends on the compiler (17 or 18).
The label is output before the struct is read. -/
def parseBIOSData (sizeofBIOSData_v1 : Nat) (rom : List Byte)
    (offset version size : Nat) : List Out × Option Nat :=
  if version = 1 ∧ size ≥ sizeofBIOSData_v1 then
    match readBIOSData_v1 rom offset with
    | .ok d => ([Out.biosDataLabel version, Out.biosDataV1 d], none)
    | .error i => ([Out.biosDataLabel version], some i)
  else if version = 2 ∧ size ≥ sizeofBIOSData_v2 then
    match readBIOSData_v2 rom offset with
    | .ok d => ([Out.biosDataLabel version, Out.biosDataV2 d], none)
    | .error i => ([Out.biosDataLabel version], some i)
  else ([Out.biosDataLabel version], none)

/-- One `output(label + readString(ptr, len) + ...)` of `parseStringPtrs`: the
pair (16-bit pointer, 8-bit length) is the `k`-th of the layout overlaid at `p`. -/
def stringLine (rom : List Byte) (p : Nat) (label : String) (k : Nat) : Except Nat Out := do
  let ptr ← readU16 rom (p + 3 * k)
  let len ← readU8 rom (p + 3 * k + 2)
  pure (Out.stringLine label (readString rom ptr len))

/-- Emits the lines in order; stops at the first out-of-bounds read. -/
def emitLines : List (Except Nat Out) → List Out × Option Nat
  | [] => ([], none)
  | .ok o :: rest => (o :: (emitLines rest).1, (emitLines rest).2)
  | .error i :: _ => ([], some i)

/-- Labels of the `StringPtrs_v1` lines, in layout order. -/
def stringLabels_v1 : List String :=
  ["Sign On Message", "OEM String", "OEM Vendor Name", "OEM Product Name",
   "OEM Product Revision"]

/-- Labels of the `StringPtrs_v2` lines, in layout order. -/
def stringLabels_v2 : List String :=
  ["Sign On Message", "Version String", "Copyright String", "OEM String",
   "OEM Vendor Name", "OEM Product Name", "OEM Product Revision"]

/-- The lines of a string-pointer layout with the given labels. -/
def stringLines (rom : List Byte) (p : Nat) (labels : List String) : List Out × Option Nat :=
  emitLines (labels.enum.map fun kl => stringLine rom p kl.2 kl.1)

/-- The method `parseStringPtrs`.  The label is output before the struct is read. -/
def parseStringPtrs (rom : List Byte) (offset version size : Nat) : List Out × Option Nat :=
  if version = 1 ∧ size ≥ sizeofStringPtrs_v1 then
    (Out.stringPtrsLabel version :: (stringLines rom offset stringLabels_v1).1,
     (stringLines rom offset stringLabels_v1).2)
  else if version = 2 ∧ size ≥ sizeofStringPtrs_v2 then
    (Out.stringPtrsLabel version :: (stringLines rom offset stringLabels_v2).1,
     (stringLines rom offset stringLabels_v2).2)
  else ([Out.stringPtrsLabel version], none)

/-- The method `parseGenericPointers`; `offset + size` is computed in `int`
from two `uint16_t`, so it is exact. -/
def parseGenericPointers (rom : List Byte) (offset size : Nat) (tokenName : String) : List Out :=
  Out.genericLabel tokenName ::
    (if offset + size ≤ rom.length then
      [Out.rawDataLabel, Out.hexDump ((rom.drop offset).take size) "        "]
    else [Out.beyondBoundary])

/-! ## parse -/

/-- The `BITToken` overlaid at a token offset. -/
structure BITToken where
  id : Nat
  dataVersion : Nat
  dataSize : Nat
  dataPointer : Nat
  deriving DecidableEq, Repr

/-- The fields of the `BITToken` overlaid at `tokenOffset`, in the order `parse`
reads them. -/
def readBITToken (rom : List Byte) (tokenOffset : Nat) : Except Nat BITToken := do
  let id ← readU8 rom tokenOffset
  let dataVersion ← readU8 rom (tokenOffset + 1)
  let dataSize ← readU16 rom (tokenOffset + 2)
  let dataPointer ← readU16 rom (tokenOffset + 4)
  pure { id, dataVersion, dataSize, dataPointer }

/-- The "Parse specific token data" statement of `parse`: the `if` on
`dataPointer` and `dataSize`, then the `switch` on the id. -/
def tokenPayload (sizeofBIOSData_v1 : Nat) (rom : List Byte) (token : BITToken) :
    List Out × Option Nat :=
  if token.dataPointer ≠ 0 ∧ token.dataSize > 0 then
    if token.id = 0x42 then
      parseBIOSData sizeofBIOSData_v1 rom token.dataPointer token.dataVersion token.dataSize
    else if token.id = 0x53 then
      parseStringPtrs rom token.dataPointer token.dataVersion token.dataSize
    else if token.id = 0x4E then ([Out.nop], none)
    else (parseGenericPointers rom token.dataPointer token.dataSize (tokenName token.id), none)
  else ([Out.noData], none)

/-- The four lines one iteration of the token loop outputs from the token record. -/
def tokenLines (i : Nat) (token : BITToken) : List Out :=
  [Out.tokenTitle i (tokenName token.id) token.id, Out.dataVersion token.dataVersion,
   Out.dataSize token.dataSize, Out.dataPointer token.dataPointer]

/-- Everything one iteration of the token loop outputs for a decoded token: the
four lines of the record, the payload and, unless the payload decoder stopped
at an out-of-bounds read, the closing newline. -/
def tokenBlock (sizeofBIOSData_v1 : Nat) (rom : List Byte) (i : Nat) (token : BITToken) :
    List Out × Option Nat :=
  match tokenPayload sizeofBIOSData_v1 rom token with
  | (payload, none) => (tokenLines i token ++ payload ++ [Out.newline], none)
  | (payload, some f) => (tokenLines i token ++ payload, some f)

/-- The loop `for (int i = 0; i < header->tokenEntries; ++i)` of `parse`; the
first numeric argument is `tokenEntries - i`, the number of iterations left.
The loop ends when an iteration stops at an out-of-bounds read. -/
def parseTokens (sizeofBIOSData_v1 : Nat) (rom : List Byte) (tokenSize : Nat) :
    Nat → Nat → Nat → List Out × Option Nat
  | 0, _, _ => ([], none)
  | n + 1, i, tokenOffset =>
    if tokenOffset + sizeofBITToken > rom.length then ([Out.tokenBeyond i], none)
    else
      match readBITToken rom tokenOffset with
      | .error f => ([], some f)
      | .ok token =>
        match tokenBlock sizeofBIOSData_v1 rom i token with
        | (block, some f) => (block, some f)
        | (block, none) =>
          (block ++
            (parseTokens sizeofBIOSData_v1 rom tokenSize n (i + 1) (tokenOffset + tokenSize)).1,
           (parseTokens sizeofBIOSData_v1 rom tokenSize n (i + 1) (tokenOffset + tokenSize)).2)

/-- What `parse` leaves behind: the report, and either the returned `bool` or
the index of the out-of-bounds read at which it stopped. -/
structure Parsed where
  report : List Out
  result : Except Nat Bool
  deriving DecidableEq, Repr

/-- The outputs of `parse` before the search for the PCI expansion ROM. -/
def reportBanner (filename : String) (rom : List Byte) : List Out :=
  [Out.banner, Out.bannerRule, Out.file filename, Out.size rom.length]

/-- The outputs of `parse` before the search for the BIT header. -/
def reportHead (filename : String) (rom : List Byte) (pciRomOffset : Nat) : List Out :=
  [Out.banner, Out.bannerRule, Out.file filename, Out.size rom.length,
   Out.pciRomOffset pciRomOffset]

/-- The `BITHeader` overlaid at the header offset; `signature` is kept as its
four bytes. -/
structure BITHeader where
  id : Nat
  signature : List Nat
  bcdVersion : Nat
  headerSize : Nat
  tokenSize : Nat
  tokenEntries : Nat
  checksum : Nat
  deriving DecidableEq, Repr

/-- The fields of the `BITHeader` overlaid at `bitHeaderOffset`, read in the
order `parse` prints them. -/
def readBITHeader (rom : List Byte) (bitHeaderOffset : Nat) : Except Nat BITHeader := do
  let id ← readU16 rom bitHeaderOffset
  let s0 ← readU8 rom (bitHeaderOffset + 2)
  let s1 ← readU8 rom (bitHeaderOffset + 3)
  let s2 ← readU8 rom (bitHeaderOffset + 4)
  let s3 ← readU8 rom (bitHeaderOffset + 5)
  let bcdVersion ← readU16 rom (bitHeaderOffset + 6)
  let headerSize ← readU8 rom (bitHeaderOffset + 8)
  let tokenSize ← readU8 rom (bitHeaderOffset + 9)
  let tokenEntries ← readU8 rom (bitHeaderOffset + 10)
  let checksum ← readU8 rom (bitHeaderOffset + 11)
  pure { id, signature := [s0, s1, s2, s3], bcdVersion, headerSize, tokenSize,
         tokenEntries, checksum }

/-- The method `parse`.  The message for an empty buffer goes to `std::cerr`,
not through `output`.  An out-of-bounds read ends the run with the report
written so far. -/
def parse (sizeofBIOSData_v1 : Nat) (filename : String) (rom : List Byte) : Parsed :=
  if rom.isEmpty then { report := [], result := .ok false }
  else
    match findPCIExpansionROM rom with
    | .error f => { report := reportBanner filename rom, result := .error f }
    | .ok pciRomOffset =>
      match findBITHeader rom pciRomOffset with
      | .error f => { report := reportHead filename rom pciRomOffset, result := .error f }
      | .ok bitHeaderOffset =>
        if bitHeaderOffset = SIZE_MAX then
          { report := reportHead filename rom pciRomOffset ++ [Out.bitNotFound],
            result := .ok false }
        else
          match readBITHeader rom bitHeaderOffset with
          | .error f =>
            { report := reportHead filename rom pciRomOffset ++
                [Out.bitFound bitHeaderOffset, Out.bitHeaderTitle],
              result := .error f }
          | .ok header =>
            { report := reportHead filename rom pciRomOffset ++
                [Out.bitFound bitHeaderOffset, Out.bitHeaderTitle,
                 Out.bitHeaderFields header.id header.signature header.bcdVersion
                   header.headerSize header.tokenSize header.tokenEntries header.checksum,
                 Out.bitTokensTitle] ++
                (parseTokens sizeofBIOSData_v1 rom header.tokenSize header.tokenEntries 0
                  (bitHeaderOffset + header.headerSize)).1
              result :=
                match (parseTokens sizeofBIOSData_v1 rom header.tokenSize header.tokenEntries 0
                  (bitHeaderOffset + header.headerSize)).2 with
                | none => .ok true
                | some f => .error f }

/-! ## Text of the report -/

/-- A number under `std::hex`. -/
def hexString (n : Nat) : String := String.mk (Nat.toDigits 16 n)

/-- Characters of a `std::string` built from raw bytes. -/
def charsOf (s : List Nat) : String := String.mk (s.map Char.ofNat)

/-- The text passed to `output` at each call site.  Inside one `stringstream` the
`std::hex` and `std::dec` manipulators stay in force for the fields that follow. -/
def Out.render : Out → String
  | .banner => "NVIDIA ROM File Analysis\n"
  | .bannerRule => "========================\n\n"
  | .file name => "File: " ++ name ++ "\n"
  | .size n => "Size: " ++ toString n ++ " bytes\n\n"
  | .pciRomOffset o => "PCI Expansion ROM found at offset: 0x" ++ hexString o ++ "\n\n"
  | .bitNotFound => "Error: BIT Header not found\n"
  | .bitFound o => "BIT Header found at offset: 0x" ++ hexString o ++ "\n\n"
  | .bitHeaderTitle => "BIT Header:\n"
  | .bitHeaderFields id sig bcd hs ts te ck =>
    "  ID: 0x" ++ hexString id ++ "\n" ++
    "  Signature: \"" ++ charsOf sig ++ "\"\n" ++
    "  BCD Version: 0x" ++ hexString bcd ++ "\n" ++
    "  Header Size: " ++ toString hs ++ " bytes\n" ++
    "  Token Size: " ++ toString ts ++ " bytes\n" ++
    "  Token Entries: " ++ toString te ++ "\n" ++
    "  Checksum: 0x" ++ hexString ck ++ "\n\n"
  | .bitTokensTitle => "BIT Tokens:\n"
  | .tokenBeyond i => "Error: Token " ++ toString i ++ " extends beyond ROM boundary\n"
  | .tokenTitle i name id =>
    "  Token " ++ toString i ++ ": " ++ name ++ " (0x" ++ hexString id ++ ")\n"
  | .dataVersion v => "    Data Version: " ++ toString v ++ "\n"
  | .dataSize s => "    Data Size: " ++ toString s ++ " bytes\n"
  | .dataPointer p => "    Data Pointer: 0x" ++ hexString p ++ "\n"
  | .biosDataLabel v => "    BIOS Data (Version " ++ toString v ++ "):\n"
  | .biosDataV1 d =>
    "      BIOS Version: " ++ hexString d.biosVersion ++ "\n" ++
    "      BIOS OEM Version: " ++ hexString d.biosOEMVersion ++ "\n" ++
    "      BIOS Checksum: 0x" ++ hexString d.biosChecksum ++ "\n" ++
    "      INT15 POST Callbacks: 0x" ++ hexString d.int15PostCallbacks ++ "\n" ++
    "      INT15 System Callbacks: 0x" ++ hexString d.int15SystemCallbacks ++ "\n" ++
    "      BIOS Board ID: 0x" ++ hexString d.biosBoardId ++ "\n" ++
    "      Frame Count: " ++ toString d.frameCount ++ "\n" ++
    "      BIOSMOD Date: " ++ hexString d.biosmodDate ++ "\n"
  | .biosDataV2 d =>
    "      BIOS Version: " ++ hexString d.biosVersion ++ "\n" ++
    "      BIOS OEM Version: " ++ hexString d.biosOEMVersion ++ "\n" ++
    "      BIOS Checksum: 0x" ++ hexString d.biosChecksum ++ "\n" ++
    "      INT15 POST Callbacks: 0x" ++ hexString d.int15PostCallbacks ++ "\n" ++
    "      INT15 System Callbacks: 0x" ++ hexString d.int15SystemCallbacks ++ "\n" ++
    "      Frame Count: " ++ toString d.frameCount ++ "\n" ++
    "      Max Heads at POST: " ++ toString d.maxHeadsAtPost ++ "\n" ++
    "      Memory Size Report: " ++ toString d.memorySizeReport ++ "\n" ++
    "      H Scale Factor: " ++ toString d.hScaleFactor ++ "\n" ++
    "      V Scale Factor: " ++ toString d.vScaleFactor ++ "\n" ++
    "      Data Table Pointer: 0x" ++ hexString d.dataTablePointer ++ "\n" ++
    "      ROMpacks Pointer: 0x" ++ hexString d.rompacksPointer ++ "\n" ++
    "      Applied ROMpacks Pointer: 0x" ++ hexString d.appliedRompacksPointer ++ "\n" ++
    "      Applied ROMpack Max: " ++ hexString d.appliedRompackMax ++ "\n" ++
    "      Applied ROMpack Count: " ++ hexString d.appliedRompackCount ++ "\n" ++
    "      Module Map External 0: 0x" ++ hexString d.moduleMapExternal0 ++ "\n" ++
    "      Compression Info Pointer: 0x" ++ hexString d.compressionInfoPointer ++ "\n"
  | .stringPtrsLabel v => "    String Pointers (Version " ++ toString v ++ "):\n"
  | .stringLine label s =>
    "      " ++ label ++ ": \"" ++ charsOf (s.map Fin.val) ++ "\"\n"
  | .nop => "    No Operation Token (NOP)\n"
  | .genericLabel name => "    " ++ name ++ " Data:\n"
  | .rawDataLabel => "      Raw Data (hex):\n"
  | .hexDump data pfx => String.join (dumpHex data pfx)
  | .beyondBoundary => "      Error: Data extends beyond ROM boundary\n"
  | .noData => "    NULL pointer or zero size - no data\n"
  | .newline => "\n"


/-! ## Reading inside the buffer -/

/-- The byte at index `i` of the image as a number (0 past the end). -/
def byteAt (rom : List Byte) (i : Nat) : Nat := (rom.getD i 0).val

/-- Sum of a run of bytes. -/
def byteSum (l : List Byte) : Nat := (l.map Fin.val).sum

/-- The anchor `0xB8FF` (16-bit little-endian) at `i` followed by the signature
`'B','I','T',0` at `i + 2`. -/
def hasAnchorSig (rom : List Byte) (i : Nat) : Prop :=
  byteAt rom i + 256 * byteAt rom (i + 1) = 0xB8FF ∧
  byteAt rom (i + 2) = 0x42 ∧ byteAt rom (i + 3) = 0x49 ∧
  byteAt rom (i + 4) = 0x54 ∧ byteAt rom (i + 5) = 0

instance (rom : List Byte) (i : Nat) : Decidable (hasAnchorSig rom i) := by
  unfold hasAnchorSig; infer_instance

/-- The sum modulo 256 of the `headerSize` bytes starting at `i`, `headerSize`
being the byte at `i + 8`. -/
def headerChecksum (rom : List Byte) (i : Nat) : Nat :=
  byteSum ((rom.drop i).take (byteAt rom (i + 8))) % 256

/-- The checksummed region of a header at `i` lies within the buffer. -/
def regionInside (rom : List Byte) (i : Nat) : Prop :=
  i + byteAt rom (i + 8) ≤ rom.length

instance (rom : List Byte) (i : Nat) : Decidable (regionInside rom i) := by
  unfold regionInside; infer_instance

/-- A valid header at `i`: the 12-byte record and its checksummed region lie in
the buffer, anchor and signature match, the checksum is 0. -/
def validHeaderAt (rom : List Byte) (i : Nat) : Prop :=
  i + sizeofBITHeader ≤ rom.length ∧ hasAnchorSig rom i ∧ regionInside rom i ∧
  headerChecksum rom i = 0

instance (rom : List Byte) (i : Nat) : Decidable (validHeaderAt rom i) := by
  unfold validHeaderAt; infer_instance

/-- The checksum byte the spec prescribes for a header of size `H`:
`(-(sum of the first H bytes, the checksum field taken as 0)) mod 256`. -/
def checksumFor (body : List Byte) (H : Nat) : Byte :=
  ⟨(256 - byteSum ((body.set 11 0).take H) % 256) % 256, Nat.mod_lt _ (by decide)⟩

/-- The buffer `body` with its checksum field (byte 11) set as the spec prescribes. -/
def sealHeader (body : List Byte) (H : Nat) : List Byte :=
  body.set 11 (checksumFor body H)

/-- A 9-byte image: anchor, signature, two version bytes and `headerSize = 0`. -/
def shortRom : List Byte := [0xFF, 0xB8, 0x42, 0x49, 0x54, 0x00, 0x00, 0x01, 0x00]

/-- A 12-byte image holding one header whose `headerSize` is 13. -/
def overrunRom : List Byte :=
  [0xFF, 0xB8, 0x42, 0x49, 0x54, 0x00, 0x00, 0x01, 0x0D, 0x06, 0x00, 0x00]

/-- A 24-byte image: anchor and signature at 0 with `headerSize = 200`, then a
checksum-correct header at 12. -/
def shadowedRom : List Byte :=
  [0xFF, 0xB8, 0x42, 0x49, 0x54, 0x00, 0x00, 0x00, 0xC8, 0x00, 0x00, 0x00,
   0xFF, 0xB8, 0x42, 0x49, 0x54, 0x00, 0x00, 0x01, 0x0C, 0x06, 0x00, 0x57]

/-- A 12-byte header body with `headerSize = 6` and a blank checksum field. -/
def smallHeaderBody : List Byte :=
  [0xFF, 0xB8, 0x42, 0x49, 0x54, 0x00, 0x00, 0x01, 0x06, 0x06, 0x00, 0x00]

/-- A 14-byte header body with `headerSize = 14` and a blank checksum field. -/
def wideHeaderBody : List Byte :=
  [0xFF, 0xB8, 0x42, 0x49, 0x54, 0x00, 0x00, 0x01, 0x0E, 0x06, 0x00, 0x00, 0x21, 0x43]

/-- The 16-bit little-endian PCIR pointer at `o + 24`. -/
def pcirPointer (rom : List Byte) (o : Nat) : Nat :=
  byteAt rom (o + 24) + 256 * byteAt rom (o + 25)

/-- The 4 bytes at `o + pointer` are ASCII "PCIR". -/
def pcirAt (rom : List Byte) (o : Nat) : Prop :=
  byteAt rom (o + pcirPointer rom o) = 0x50 ∧ byteAt rom (o + pcirPointer rom o + 1) = 0x43 ∧
  byteAt rom (o + pcirPointer rom o + 2) = 0x49 ∧ byteAt rom (o + pcirPointer rom o + 3) = 0x52

instance (rom : List Byte) (o : Nat) : Decidable (pcirAt rom o) := by
  unfold pcirAt; infer_instance

/-- The acceptance condition of the spec for a ROM base `o`: signature, pointer
readable, and the "PCIR" bytes ending at or before the buffer end. -/
def pciAcceptedSpec (rom : List Byte) (o : Nat) : Prop :=
  o % 512 = 0 ∧ o + 1 < rom.length ∧ byteAt rom o = 0x55 ∧ byteAt rom (o + 1) = 0xAA ∧
  o + 26 ≤ rom.length ∧ o + pcirPointer rom o + 4 ≤ rom.length ∧ pcirAt rom o

instance (rom : List Byte) (o : Nat) : Decidable (pciAcceptedSpec rom o) := by
  unfold pciAcceptedSpec; infer_instance

/-- The acceptance condition of the code at offset `i`: as the spec's, but the
"PCIR" bytes must end strictly before the buffer end. -/
def pciMatch (rom : List Byte) (i : Nat) : Prop :=
  byteAt rom i = 0x55 ∧ byteAt rom (i + 1) = 0xAA ∧ i + 25 < rom.length ∧
  i + pcirPointer rom i + 4 < rom.length ∧ pcirAt rom i

instance (rom : List Byte) (i : Nat) : Decidable (pciMatch rom i) := by
  unfold pciMatch; infer_instance

/-- A 542-byte image whose only ROM signature is at 512, with pointer 26 and
"PCIR" in the last four bytes. -/
def pcirAtEndRom : List Byte :=
  List.replicate 512 0 ++ [0x55, 0xAA] ++ List.replicate 22 0 ++ [26, 0] ++
    [0x50, 0x43, 0x49, 0x52]

/-- The longest run of non-zero bytes starting at `offset` inside
`[offset, min(length, offset + maxLength))`. -/
def nonZeroRun (rom : List Byte) (offset maxLength : Nat) : List Byte :=
  ((rom.drop offset).take maxLength).takeWhile (fun b => b ≠ 0)

/-- The bytes `'A','B','C',0,'D','E','F'` placed at offset 1. -/
def abcRom : List Byte := [0x00, 0x41, 0x42, 0x43, 0x00, 0x44, 0x45, 0x46]

/-- The `BITToken` record whose 6 bytes start at `t`: id, dataVersion, dataSize
(16-bit little-endian), dataPointer (16-bit little-endian). -/
def tokenAt (rom : List Byte) (t : Nat) : BITToken :=
  { id := byteAt rom t
    dataVersion := byteAt rom (t + 1)
    dataSize := byteAt rom (t + 2) + 256 * byteAt rom (t + 3)
    dataPointer := byteAt rom (t + 4) + 256 * byteAt rom (t + 5) }

/-- Offset of the `i`-th token record of the header at `h`:
`h + headerSize + i * tokenSize`. -/
def tokenOffsetOf (rom : List Byte) (h i : Nat) : Nat :=
  h + byteAt rom (h + 8) + i * byteAt rom (h + 9)

/-- The number of indices `i` below `n` whose 6-byte record, at
`first + i * tokenSize`, ends at or before the buffer end. -/
def fitCount (rom : List Byte) (first tokenSize n : Nat) : Nat :=
  ((List.range n).filter fun i => first + i * tokenSize + 6 ≤ rom.length).length

/-- The number `M` of token records of the header at `h` that fit the buffer,
among the `tokenEntries` declared. -/
def fittingTokens (rom : List Byte) (h : Nat) : Nat :=
  fitCount rom (h + byteAt rom (h + 8)) (byteAt rom (h + 9)) (byteAt rom (h + 10))

/-- The report of `parse` up to and including the "BIT Tokens:" title, for ROM
base `o` and a header at `h`. -/
def reportHeader (filename : String) (rom : List Byte) (o h : Nat) : List Out :=
  reportHead filename rom o ++
    [Out.bitFound h, Out.bitHeaderTitle,
     Out.bitHeaderFields (byteAt rom h + 256 * byteAt rom (h + 1))
       [byteAt rom (h + 2), byteAt rom (h + 3), byteAt rom (h + 4), byteAt rom (h + 5)]
       (byteAt rom (h + 6) + 256 * byteAt rom (h + 7)) (byteAt rom (h + 8))
       (byteAt rom (h + 9)) (byteAt rom (h + 10)) (byteAt rom (h + 11)),
     Out.bitTokensTitle]

/-- The token blocks of indices `0 .. m - 1`, in order, each decoded from its
record `first + k * tokenSize` and numbered `i + k`. -/
def blocksFrom (sizeofBIOSData_v1 : Nat) (rom : List Byte) (first tokenSize i m : Nat) :
    List Out :=
  (List.range m).flatMap fun k =>
    (tokenBlock sizeofBIOSData_v1 rom (i + k) (tokenAt rom (first + k * tokenSize))).1

/-- The number of bytes a token's payload decoder reads from `dataPointer` on:
17, 33, 15 or 21 for a BIOSDATA or STRING_PTRS token of recognised version and
size, 0 for every other token (nothing is read unchecked). -/
def decoderReach (sizeofBIOSData_v1 : Nat) (token : BITToken) : Nat :=
  if token.dataPointer ≠ 0 ∧ token.dataSize > 0 then
    if token.id = 0x42 then
      if token.dataVersion = 1 ∧ token.dataSize ≥ sizeofBIOSData_v1 then 17
      else if token.dataVersion = 2 ∧ token.dataSize ≥ sizeofBIOSData_v2 then 33
      else 0
    else if token.id = 0x53 then
      if token.dataVersion = 1 ∧ token.dataSize ≥ sizeofStringPtrs_v1 then 15
      else if token.dataVersion = 2 ∧ token.dataSize ≥ sizeofStringPtrs_v2 then 21
      else 0
    else 0
  else 0

/-- The bytes the token's payload decoder reads lie inside the buffer. -/
def payloadInside (sizeofBIOSData_v1 : Nat) (rom : List Byte) (token : BITToken) : Prop :=
  decoderReach sizeofBIOSData_v1 token = 0 ∨
    token.dataPointer + decoderReach sizeofBIOSData_v1 token ≤ rom.length

instance (v : Nat) (rom : List Byte) (token : BITToken) : Decidable (payloadInside v rom token) := by
  unfold payloadInside; infer_instance

/-- No payload decoder of a token record that fits the buffer reads past the
buffer end, for the header at `h`. -/
def decodersInside (sizeofBIOSData_v1 : Nat) (rom : List Byte) (h : Nat) : Prop :=
  ∀ i, i < fittingTokens rom h →
    payloadInside sizeofBIOSData_v1 rom (tokenAt rom (tokenOffsetOf rom h i))

instance (v : Nat) (rom : List Byte) (h : Nat) : Decidable (decodersInside v rom h) := by
  unfold decodersInside; infer_instance

/-- The output is one of the four lines printed from a token record. -/
def Out.isTokenLine : Out → Bool
  | .tokenTitle _ _ _ => true
  | .dataVersion _ => true
  | .dataSize _ => true
  | .dataPointer _ => true
  | _ => false

/-- The record lines of the tokens `0 .. j - 1`, numbered from `i`, each decoded
from its record `first + k * tokenSize`. -/
def linesFrom (rom : List Byte) (first tokenSize i j : Nat) : List Out :=
  (List.range j).flatMap fun k => tokenLines (i + k) (tokenAt rom (first + k * tokenSize))

/-- The output is the title line of a token block. -/
def Out.isTokenTitle : Out → Bool
  | .tokenTitle _ _ _ => true
  | _ => false

/-- The output is a truncation marker. -/
def Out.isTokenBeyond : Out → Bool
  | .tokenBeyond _ => true
  | _ => false

/-- A 20-byte image: a valid header at 0 declaring 3 tokens of 6 bytes, one NOP
token record, then 2 more bytes. -/
def truncatedRom : List Byte :=
  [0xFF, 0xB8, 0x42, 0x49, 0x54, 0x00, 0x00, 0x01, 0x0C, 0x06, 0x03, 0x54,
   0x4E, 0x00, 0x01, 0x00, 0x01, 0x00, 0x00, 0x00]

/-- A 47-byte image: a valid header at 0 with `headerSize = 27` declaring 4
tokens; bytes 12..26 hold a `StringPtrs_v1` layout of null and out-of-range
pointers; the tokens are a generic one whose payload exceeds the buffer, a
BIOSDATA of version 9, a STRING_PTRS pointing at offset 12, and a fourth record
cut by the end of the buffer. -/
def lenientRom : List Byte :=
  [0xFF, 0xB8, 0x42, 0x49, 0x54, 0x00, 0x00, 0x01, 0x1B, 0x06, 0x04, 0x3E,
   0x00, 0x00, 0x05, 0xFF, 0xFF, 0x05, 0x00, 0x00, 0x00, 0xFF, 0xFF, 0x00, 0x00, 0x00, 0x00,
   0x50, 0x01, 0x00, 0x01, 0xF0, 0x00,
   0x42, 0x09, 0x04, 0x00, 0x01, 0x00,
   0x53, 0x01, 0x0F, 0x00, 0x0C, 0x00,
   0x00, 0x00]

/-- The output belongs to a payload block. -/
def Out.isPayload : Out → Bool
  | .biosDataLabel _ => true
  | .biosDataV1 _ => true
  | .biosDataV2 _ => true
  | .stringPtrsLabel _ => true
  | .stringLine _ _ => true
  | .nop => true
  | .genericLabel _ => true
  | .rawDataLabel => true
  | .hexDump _ _ => true
  | .beyondBoundary => true
  | .noData => true
  | _ => false

/-- A 15-byte image: three stray bytes, then anchor, signature and
`headerSize = 0` with an arbitrary checksum byte `0x99`. -/
def zeroSizeRom : List Byte :=
  [0x01, 0x02, 0x03,
   0xFF, 0xB8, 0x42, 0x49, 0x54, 0x00, 0x00, 0x01, 0x00, 0x06, 0x00, 0x99]

/-- An 18-byte image: a valid header at 0 with `tokenSize = 0` declaring 3
tokens, followed by one NOP token record. -/
def zeroStrideRom : List Byte :=
  [0xFF, 0xB8, 0x42, 0x49, 0x54, 0x00, 0x00, 0x01, 0x0C, 0x00, 0x03, 0x5A,
   0x4E, 0x00, 0x01, 0x00, 0x01, 0x00]

/-- The 20 ids the claim lists as known. -/
def knownIds : List Nat :=
  [0x32, 0x41, 0x42, 0x43, 0x44, 0x49, 0x4C, 0x4D, 0x4E, 0x50,
   0x52, 0x53, 0x54, 0x55, 0x56, 0x63, 0x64, 0x70, 0x75, 0x78]

/-- The 16-bit little-endian value at `i`. -/
def le16At (rom : List Byte) (i : Nat) : Nat := byteAt rom i + 256 * byteAt rom (i + 1)

/-- The 32-bit little-endian value at `i`. -/
def le32At (rom : List Byte) (i : Nat) : Nat :=
  byteAt rom i + 256 * byteAt rom (i + 1) + 65536 * byteAt rom (i + 2) +
    16777216 * byteAt rom (i + 3)

/-- The `k`-th string of a string-pointer layout at `p`: `readString` of the
16-bit little-endian pointer at `p + 3k` and the length byte at `p + 3k + 2`. -/
def stringOf (rom : List Byte) (p k : Nat) : List Byte :=
  readString rom (le16At rom (p + 3 * k)) (byteAt rom (p + 3 * k + 2))

/-- A 24-byte image: a valid header at 0 declaring 2 tokens, a BIOSDATA
version 1 token of size 18 pointing at offset 256, and a STRING_PTRS version 2
token of size 21 pointing at offset 10. -/
def strayRom : List Byte :=
  [0xFF, 0xB8, 0x42, 0x49, 0x54, 0x00, 0x00, 0x01, 0x0C, 0x06, 0x02, 0x55,
   0x42, 0x01, 0x12, 0x00, 0x00, 0x01,
   0x53, 0x02, 0x15, 0x00, 0x0A, 0x00]

/-- A 24-byte image: the header of `strayRom`, then the STRING_PTRS version 2
token of size 21 pointing at offset 10, then the BIOSDATA token. -/
def strayStringsRom : List Byte :=
  [0xFF, 0xB8, 0x42, 0x49, 0x54, 0x00, 0x00, 0x01, 0x0C, 0x06, 0x02, 0x55,
   0x53, 0x02, 0x15, 0x00, 0x0A, 0x00,
   0x42, 0x01, 0x12, 0x00, 0x00, 0x01]

/-- A 20-byte image: a valid header at 0 declaring 3 tokens of 6 bytes, one
BIOSDATA version 1 token record of size 18 whose dataPointer is `0xFFF0`, then 2
more bytes. -/
def wildRom : List Byte :=
  [0xFF, 0xB8, 0x42, 0x49, 0x54, 0x00, 0x00, 0x01, 0x0C, 0x06, 0x03, 0x54,
   0x42, 0x01, 0x12, 0x00, 0xF0, 0xFF, 0x00, 0x00]

/-- An 18-byte image: a valid header at 0 with `tokenSize = 0` declaring 3
tokens, followed by one BIOSDATA version 1 token record of size 18 whose
dataPointer is `0xFFF0`. -/
def wildStrideRom : List Byte :=
  [0xFF, 0xB8, 0x42, 0x49, 0x54, 0x00, 0x00, 0x01, 0x0C, 0x00, 0x03, 0x5A,
   0x42, 0x01, 0x12, 0x00, 0xF0, 0xFF]

/-- A 40-byte image: 20 bytes `1 .. 20`, then the same with a different byte
at index 17; used as a `BIOSData_v1` payload at offset 0 or 20. -/
def biosRom : List Byte :=
  [0x01, 0x02, 0x03, 0x04, 0x05, 0x06, 0x07, 0x08, 0x09, 0x0A,
   0x0B, 0x0C, 0x0D, 0x0E, 0x0F, 0x10, 0x11, 0x12, 0x13, 0x14,
   0x01, 0x02, 0x03, 0x04, 0x05, 0x06, 0x07, 0x08, 0x09, 0x0A,
   0x0B, 0x0C, 0x0D, 0x0E, 0x0F, 0x10, 0x11, 0xEE, 0x13, 0x14]

/-- A 33-byte image: a `StringPtrs_v1` layout at offset 1 whose five pointers
are 16, 0, 20, 100 and 25, followed by the strings "ABC", "DE" and "FGHIJKLM". -/
def stringsRom : List Byte :=
  [0x00,
   0x10, 0x00, 0x08, 0x00, 0x00, 0x08, 0x14, 0x00, 0x08, 0x64, 0x00, 0x08, 0x19, 0x00, 0x04,
   0x41, 0x42, 0x43, 0x00, 0x44, 0x45, 0x00, 0x00, 0x00,
   0x46, 0x47, 0x48, 0x49, 0x4A, 0x4B, 0x4C, 0x4D]

/-- The index printed on a token title line. -/
def Out.tokenIndex : Out → Option Nat
  | .tokenTitle i _ _ => some i
  | _ => none

/-- Byte `i` of the scenario image: the ROM signature `55 AA` at 512, the 16-bit
pointer `pcirPtr` at 512 + 24, "PCIR" at 512 + 28, a checksum-correct BIT
header at 600 declaring 2 tokens of 6 bytes, at 612 a BIOSDATA version 1 token
of size 18 pointing at 700, at 618 a NOP token with the given `dataSize` and
`dataPointer`, 18 payload bytes `01 .. 12` at 700, and zero everywhere else. -/
def scenarioByte (pcirPtr nopSize nopPointer : Byte) (i : Nat) : Byte :=
  if 512 ≤ i ∧ i < 514 then [0x55, 0xAA].getD (i - 512) 0
  else if i = 536 then pcirPtr
  else if 540 ≤ i ∧ i < 544 then [0x50, 0x43, 0x49, 0x52].getD (i - 540) 0
  else if 600 ≤ i ∧ i < 612 then
    [0xFF, 0xB8, 0x42, 0x49, 0x54, 0x00, 0x00, 0x01, 0x0C, 0x06, 0x02, 0x55].getD (i - 600) 0
  else if 612 ≤ i ∧ i < 618 then [0x42, 0x01, 0x12, 0x00, 0xBC, 0x02].getD (i - 612) 0
  else if 618 ≤ i ∧ i < 624 then [0x4E, 0x00, nopSize, 0x00, nopPointer, 0x00].getD (i - 618) 0
  else if 700 ≤ i ∧ i < 718 then
    [0x01, 0x02, 0x03, 0x04, 0x05, 0x06, 0x07, 0x08, 0x09, 0x0A, 0x0B, 0x0C, 0x0D, 0x0E,
     0x0F, 0x10, 0x11, 0x12].getD (i - 700) 0
  else 0

/-- The 2048-byte scenario image. -/
def scenarioImage (pcirPtr nopSize nopPointer : Byte) : List Byte :=
  (List.range 2048).map (scenarioByte pcirPtr nopSize nopPointer)

/-- Byte `i` of the scenario image with pointer 28 and a NOP token of
`dataSize = 1`, `dataPointer = 1`, in which the `dataPointer` bytes 616 and 617
of the BIOSDATA token are zero. -/
def scenarioNullByte (i : Nat) : Byte :=
  if 616 ≤ i ∧ i < 618 then 0 else scenarioByte 28 1 1 i

/-- The 2048-byte scenario image whose BIOSDATA token has `dataPointer = 0`. -/
def scenarioNullImage : List Byte :=
  (List.range 2048).map scenarioNullByte

/-- The bytes of line `k` of a hex dump: `data[16k .. 16k + 16)`, cut at the end. -/
def hexLine (data : List Byte) (k : Nat) : List Byte := (data.drop (16 * k)).take 16

/-- The three characters of one hex group: two hexadecimal digits and a space. -/
def groupChars (b : Byte) : List Char := [hexDigit (b.val / 16), hexDigit (b.val % 16), ' ']

/-- The value of a lowercase hexadecimal digit. -/
def hexValue (c : Char) : Option Nat :=
  if '0' ≤ c ∧ c ≤ '9' then some (c.toNat - '0'.toNat)
  else if 'a' ≤ c ∧ c ≤ 'f' then some (c.toNat - 'a'.toNat + 10)
  else none

/-- Reads a hex group (two lowercase hexadecimal digits and a space) back as a
number. -/
def readGroup : List Char → Option Nat
  | [hi, lo, sp] =>
    if sp = ' ' then
      match hexValue hi, hexValue lo with
      | some a, some b => some (16 * a + b)
      | _, _ => none
    else none
  | _ => none

/-- The sixteen lowercase hexadecimal digits. -/
def lowerHexDigits : List Char := "0123456789abcdef".data

/-- Bytes `0x00 .. 0x11`, eighteen of them. -/
def eighteenBytes : List Byte :=
  [0x00, 0x01, 0x02, 0x03, 0x04, 0x05, 0x06, 0x07, 0x08, 0x09, 0x0A, 0x0B, 0x0C, 0x0D,
   0x0E, 0x0F, 0x10, 0x11]

theorem byteAt_of_lt {rom : List Byte} {i : Nat} (h : i < rom.length) :
    byteAt rom i = (rom[i]).val := by
  unfold byteAt
  rw [List.getD_eq_getElem _ _ h]

theorem byteAt_lt (rom : List Byte) (i : Nat) : byteAt rom i < 256 := (rom.getD i 0).isLt

theorem readU8_of_lt {rom : List Byte} {i : Nat} (h : i < rom.length) :
    readU8 rom i = .ok (byteAt rom i) := by
  rw [byteAt_of_lt h]
  simp [readU8, List.getElem?_eq_getElem h]

theorem readU8_of_ge {rom : List Byte} {i : Nat} (h : rom.length ≤ i) :
    readU8 rom i = .error i := by
  simp [readU8, List.getElem?_eq_none h]

theorem readU16_of_lt {rom : List Byte} {i : Nat} (h : i + 1 < rom.length) :
    readU16 rom i = .ok (byteAt rom i + 256 * byteAt rom (i + 1)) := by
  have h0 : i < rom.length := by omega
  simp [readU16, readU8_of_lt h, readU8_of_lt h0, bind, Except.bind, pure, Except.pure]

theorem readU32_of_lt {rom : List Byte} {i : Nat} (h : i + 3 < rom.length) :
    readU32 rom i = .ok (byteAt rom i + 256 * byteAt rom (i + 1) + 65536 * byteAt rom (i + 2)
      + 16777216 * byteAt rom (i + 3)) := by
  have h0 : i < rom.length := by omega
  have h1 : i + 1 < rom.length := by omega
  have h2 : i + 2 < rom.length := by omega
  simp [readU32, readU8_of_lt h, readU8_of_lt h0, readU8_of_lt h1, readU8_of_lt h2,
    bind, Except.bind, pure, Except.pure]

theorem drop_eq_byte_cons {rom : List Byte} {k : Nat} (h : k < rom.length) :
    ∃ b : Byte, b.val = byteAt rom k ∧ rom.drop k = b :: rom.drop (k + 1) :=
  ⟨rom[k], (byteAt_of_lt h).symm, List.drop_eq_getElem_cons h⟩

theorem headerSum_eq (rom : List Byte) (i : Nat) :
    ∀ (n j sum : Nat), sum < 256 → i + j + n ≤ rom.length →
      headerSum rom i n j sum = .ok ((sum + byteSum ((rom.drop (i + j)).take n)) % 256) := by
  intro n
  induction n with
  | zero =>
    intro j sum hs _
    simp [headerSum, byteSum, Nat.mod_eq_of_lt hs]
  | succ n ih =>
    intro j sum _ hlen
    have hlt : i + j < rom.length := by omega
    obtain ⟨b, hb, hdrop⟩ := drop_eq_byte_cons hlt
    have hrec := ih (j + 1) ((sum + byteAt rom (i + j)) % 256) (Nat.mod_lt _ (by decide))
      (by omega)
    simp only [headerSum, readU8_of_lt hlt, bind, Except.bind]
    rw [hrec, hdrop]
    have : i + (j + 1) = i + j + 1 := by omega
    rw [this]
    simp only [List.take_succ_cons, byteSum, List.map_cons, List.sum_cons, hb]
    congr 1
    omega

/-! ## findBITHeader on candidates that stay inside the buffer -/

theorem sig_eq_iff (rom : List Byte) (i : Nat) :
    byteAt rom (i + 2) + 256 * byteAt rom (i + 2 + 1) + 65536 * byteAt rom (i + 2 + 2)
      + 16777216 * byteAt rom (i + 2 + 3) = 0x00544942 ↔
    (byteAt rom (i + 2) = 0x42 ∧ byteAt rom (i + 3) = 0x49 ∧
      byteAt rom (i + 4) = 0x54 ∧ byteAt rom (i + 5) = 0) := by
  have h2 := byteAt_lt rom (i + 2)
  have h3 := byteAt_lt rom (i + 3)
  have h4 := byteAt_lt rom (i + 4)
  have h5 := byteAt_lt rom (i + 5)
  have e3 : i + 2 + 1 = i + 3 := rfl
  have e4 : i + 2 + 2 = i + 4 := rfl
  have e5 : i + 2 + 3 = i + 5 := rfl
  rw [e3, e4, e5]
  omega

theorem bitCandidate_of_not_anchor {rom : List Byte} {i : Nat}
    (hrec : i + sizeofBITHeader ≤ rom.length) (h : ¬ hasAnchorSig rom i) :
    bitCandidate rom i = .ok false := by
  unfold sizeofBITHeader at hrec
  have hsig := sig_eq_iff rom i
  unfold bitCandidate
  rw [readU16_of_lt (by omega)]
  simp only [bind, Except.bind, pure, Except.pure]
  split
  · rename_i hid
    rw [readU32_of_lt (by omega)]
    simp only []
    split
    · rename_i hs
      exact absurd ⟨hid, hsig.mp hs⟩ h
    · rfl
  · rfl

theorem bitCandidate_of_anchor {rom : List Byte} {i : Nat}
    (hrec : i + sizeofBITHeader ≤ rom.length) (h : hasAnchorSig rom i)
    (hin : regionInside rom i) :
    bitCandidate rom i = .ok (decide (headerChecksum rom i = 0)) := by
  unfold sizeofBITHeader at hrec
  have hsig := sig_eq_iff rom i
  unfold bitCandidate
  rw [readU16_of_lt (by omega)]
  simp only [bind, Except.bind, pure, Except.pure]
  rw [if_pos h.1, readU32_of_lt (by omega)]
  simp only []
  rw [if_pos (hsig.mpr h.2), readU8_of_lt (by omega)]
  simp only []
  rw [headerSum_eq rom i _ 0 0 (by decide) (by simpa using hin)]
  simp [headerChecksum]

theorem findBITHeaderLoop_found (rom : List Byte) (bound k : Nat) (hk : k ≤ bound)
    (hit : bitCandidate rom k = .ok true) :
    ∀ (n i : Nat), i ≤ k → k - i < n →
      (∀ j, i ≤ j → j < k → bitCandidate rom j = .ok false) →
      findBITHeaderLoop rom bound n i = .ok k := by
  intro n
  induction n with
  | zero => intro i _ h; omega
  | succ n ih =>
    intro i hik hn hbefore
    unfold findBITHeaderLoop
    rw [if_pos (by omega)]
    by_cases heq : i = k
    · subst heq
      simp [hit, bind, Except.bind, pure, Except.pure]
    · have hlt : i < k := by omega
      rw [hbefore i (le_refl i) hlt]
      simp only [bind, Except.bind]
      exact ih (i + 1) (by omega) (by omega) (fun j h1 h2 => hbefore j (by omega) h2)

theorem findBITHeaderLoop_none (rom : List Byte) (bound : Nat) :
    ∀ (n i : Nat), (∀ j, i ≤ j → j ≤ bound → bitCandidate rom j = .ok false) →
      findBITHeaderLoop rom bound n i = .ok SIZE_MAX := by
  intro n
  induction n with
  | zero => intro i _; rfl
  | succ n ih =>
    intro i hall
    unfold findBITHeaderLoop
    split
    · rename_i hle
      rw [hall i (le_refl i) hle]
      simp only [bind, Except.bind]
      exact ih (i + 1) (fun j h1 h2 => hall j (by omega) h2)
    · rfl

theorem bit_bound_eq {rom : List Byte} (h12 : sizeofBITHeader ≤ rom.length)
    (hmax : rom.length < 2 ^ 64) :
    (rom.length + 2 ^ 64 - sizeofBITHeader) % 2 ^ 64 = rom.length - sizeofBITHeader := by
  unfold sizeofBITHeader at *
  omega

/-- A false candidate: no anchor and signature, or a checksummed region inside
the buffer whose sum is not 0. -/
theorem bitCandidate_rejected {rom : List Byte} {j : Nat}
    (hrec : j + sizeofBITHeader ≤ rom.length)
    (h : ¬ hasAnchorSig rom j ∨ (regionInside rom j ∧ headerChecksum rom j ≠ 0)) :
    bitCandidate rom j = .ok false := by
  by_cases ha : hasAnchorSig rom j
  · rcases h with h | ⟨hin, hne⟩
    · exact absurd ha h
    · rw [bitCandidate_of_anchor hrec ha hin]
      simp [hne]
  · exact bitCandidate_of_not_anchor hrec ha

/-- Functional behaviour of `findBITHeader` when no candidate overruns the
buffer: the first valid header at or after `start` is returned. -/
theorem findBITHeader_first_valid (rom : List Byte) (start k : Nat)
    (hmax : rom.length < 2 ^ 64) (hsk : start ≤ k) (hv : validHeaderAt rom k)
    (hbefore : ∀ j, start ≤ j → j < k →
      ¬ hasAnchorSig rom j ∨ (regionInside rom j ∧ headerChecksum rom j ≠ 0)) :
    findBITHeader rom start = .ok k := by
  obtain ⟨hrec, ha, hin, hsum⟩ := hv
  have h12 : sizeofBITHeader ≤ rom.length := by omega
  unfold findBITHeader
  simp only [bit_bound_eq h12 hmax]
  apply findBITHeaderLoop_found rom _ k (by omega)
  · rw [bitCandidate_of_anchor hrec ha hin]; simp [hsum]
  · exact hsk
  · omega
  · intro j h1 h2
    exact bitCandidate_rejected (by omega) (hbefore j h1 h2)

/-- Functional behaviour of `findBITHeader` when no candidate overruns the
buffer: without a valid header at or after `start` the result is `SIZE_MAX`. -/
theorem findBITHeader_not_found (rom : List Byte) (start : Nat)
    (h12 : sizeofBITHeader ≤ rom.length) (hmax : rom.length < 2 ^ 64)
    (hall : ∀ j, start ≤ j → j + sizeofBITHeader ≤ rom.length →
      ¬ hasAnchorSig rom j ∨ (regionInside rom j ∧ headerChecksum rom j ≠ 0)) :
    findBITHeader rom start = .ok SIZE_MAX := by
  unfold findBITHeader
  simp only [bit_bound_eq h12 hmax]
  apply findBITHeaderLoop_none
  intro j h1 h2
  exact bitCandidate_rejected (by omega) (hall j h1 (by omega))

/-! ## Claims on findBITHeader -/

/-- C1 (code defect): in `shadowedRom` the least valid header is at offset 12,
yet `findBITHeader` from 0 does not return 12: at the earlier anchor+signature
match its checksum loop runs over `headerSize = 200` bytes and reads index 24
of a 24-byte buffer. -/
theorem C1_findBITHeader_overruns_at_false_candidate :
    shadowedRom.length = 24 ∧ validHeaderAt shadowedRom 12 ∧
    (∀ j, j < 12 → ¬ validHeaderAt shadowedRom j) ∧
    findBITHeader shadowedRom 0 = .error 24 := by
  decide

/-- C2 (code defect): a 9-byte buffer, shorter than `sizeof(BITHeader)`, on which
`findBITHeader` returns offset 0 instead of `SIZE_MAX`; on a 2-byte buffer it
reads index 2. -/
theorem C2_findBITHeader_short_buffer :
    shortRom.length < sizeofBITHeader ∧ findBITHeader shortRom 0 = .ok 0 ∧
    (0 : Nat) ≠ SIZE_MAX ∧ findBITHeader [0xFF, 0xB8] 0 = .error 2 := by
  decide

/-- C10 (code defect): `findBITHeader` reads the out-of-bounds index 12 of the
12-byte `overrunRom` while summing its header, and index 1 of a 1-byte buffer. -/
theorem C10_findBITHeader_reads_past_end :
    overrunRom.length = 12 ∧ findBITHeader overrunRom 0 = .error 12 ∧
    findBITHeader [0x00] 0 = .error 1 := by
  decide

theorem byteSum_take_set (x : Byte) :
    ∀ (l : List Byte) (k H : Nat), k < H → k < l.length →
      byteSum ((l.set k x).take H) = byteSum ((l.set k 0).take H) + x.val := by
  intro l
  induction l with
  | nil => intro k H _ h; simp at h
  | cons a t ih =>
    intro k H hkH hk
    obtain ⟨H', rfl⟩ : ∃ H', H = H' + 1 := ⟨H - 1, by omega⟩
    cases k with
    | zero => simp [byteSum]; omega
    | succ k =>
      have := ih k H' (by omega) (by simpa using hk)
      simp only [byteSum, List.set_cons_succ, List.take_succ_cons, List.map_cons,
        List.sum_cons] at this ⊢
      omega

theorem byteAt_set_ne (l : List Byte) (k i : Nat) (x : Byte) (h : k ≠ i) :
    byteAt (l.set k x) i = byteAt l i := by
  unfold byteAt
  simp [List.getD_eq_getElem?_getD, List.getElem?_set_ne h]

theorem hasAnchorSig_sealHeader {body : List Byte} {H : Nat} (h : hasAnchorSig body 0) :
    hasAnchorSig (sealHeader body H) 0 := by
  unfold hasAnchorSig sealHeader at *
  simpa [byteAt_set_ne] using h

/-- C3 (amended): for `H = 0` or `12 ≤ H ≤ 255`, a buffer of length at least
`max 12 H` holding at offset 0 the anchor, the signature and `headerSize = H`,
with byte 11 set to `(-(sum of the first H bytes, byte 11 taken as 0)) mod 256`,
is detected: `findBITHeader` from 0 returns 0. -/
theorem C3_checksum_round_trip (body : List Byte) (H : Nat) (hH : H = 0 ∨ 12 ≤ H)
    (hlen : max 12 H ≤ body.length) (hmax : body.length < 2 ^ 64)
    (ha : hasAnchorSig body 0) (hs : byteAt body 8 = H) :
    findBITHeader (sealHeader body H) 0 = .ok 0 := by
  have hl : (sealHeader body H).length = body.length := by simp [sealHeader]
  have h8 : byteAt (sealHeader body H) (0 + 8) = H := by
    unfold sealHeader
    rw [byteAt_set_ne _ _ _ _ (by decide)]
    simpa using hs
  have h12 : 12 ≤ body.length := le_trans (le_max_left _ _) hlen
  have hHl : H ≤ body.length := le_trans (le_max_right _ _) hlen
  apply findBITHeader_first_valid _ 0 0 (by rw [hl]; exact hmax) (le_refl 0)
  · refine ⟨by rw [hl]; simpa [sizeofBITHeader] using h12, hasAnchorSig_sealHeader ha, ?_, ?_⟩
    · unfold regionInside
      rw [h8, hl]; omega
    · unfold headerChecksum
      rw [h8]
      rcases hH with h0 | hge
      · subst h0; simp [byteSum]
      · unfold sealHeader
        rw [List.drop_zero, byteSum_take_set _ _ 11 H (by omega) (by omega)]
        simp only [checksumFor]
        omega
  · intro j _ hj; omega

/-- C3 witness: `wideHeaderBody`, `H = 14`. -/
theorem C3_checksum_round_trip_witness :
    findBITHeader (sealHeader wideHeaderBody 14) 0 = .ok 0 :=
  C3_checksum_round_trip wideHeaderBody 14 (by decide) (by decide) (by decide) (by decide)
    (by decide)

/-- C3 as stated fails at `H = 6`: the checksum byte (index 11) lies outside the
6 summed bytes, whose sum `0x96` is not 0, so the sealed header is not detected. -/
theorem C3_small_headerSize_not_detected :
    hasAnchorSig smallHeaderBody 0 ∧ byteAt smallHeaderBody 8 = 6 ∧
    max 12 6 ≤ smallHeaderBody.length ∧
    findBITHeader (sealHeader smallHeaderBody 6) 0 = .ok SIZE_MAX ∧
    findBITHeader (sealHeader smallHeaderBody 6) 0 ≠ .ok 0 := by
  decide

/-! ## findPCIExpansionROM -/

theorem pciCandidate_eq {rom : List Byte} {i : Nat} (h : i + 1 < rom.length) :
    pciCandidate rom i = .ok (decide (pciMatch rom i)) := by
  unfold pciCandidate
  rw [readU8_of_lt (by omega)]
  simp only [bind, Except.bind, pure, Except.pure]
  by_cases h0 : byteAt rom i = 0x55
  · rw [if_pos h0, readU8_of_lt h]
    simp only []
    by_cases h1 : byteAt rom (i + 1) = 0xAA
    · rw [if_pos h1]
      by_cases h25 : i + 25 < rom.length
      · rw [if_pos h25, readU16_of_lt (by omega)]
        simp only []
        have hp : byteAt rom (i + 24) + 256 * byteAt rom (i + 24 + 1) = pcirPointer rom i := rfl
        rw [hp]
        by_cases h4 : i + pcirPointer rom i + 4 < rom.length
        · rw [if_pos h4, readU8_of_lt (by omega), readU8_of_lt (by omega),
            readU8_of_lt (by omega), readU8_of_lt (by omega)]
          simp [pciMatch, pcirAt, h0, h1, h25, h4]
        · rw [if_neg h4]; simp [pciMatch, h4]
      · rw [if_neg h25]; simp [pciMatch, h25]
    · rw [if_neg h1]; simp [pciMatch, h1]
  · rw [if_neg h0]; simp [pciMatch, h0]

theorem pci_bound_le (rom : List Byte) (h : rom ≠ []) :
    (rom.length + 2 ^ 64 - 1) % 2 ^ 64 + 1 ≤ rom.length := by
  have : 0 < rom.length := List.length_pos.mpr h
  omega

theorem pci_bound_eq {rom : List Byte} (h : rom ≠ []) (hmax : rom.length < 2 ^ 64) :
    (rom.length + 2 ^ 64 - 1) % 2 ^ 64 = rom.length - 1 := by
  have : 0 < rom.length := List.length_pos.mpr h
  omega

theorem findPCILoop_ok (rom : List Byte) (bound : Nat) (hb : bound + 1 ≤ rom.length) :
    ∀ (n i : Nat), ∃ o, findPCILoop rom bound n i = .ok o := by
  intro n
  induction n with
  | zero => intro i; exact ⟨0, rfl⟩
  | succ n ih =>
    intro i
    unfold findPCILoop
    split
    · rename_i hi
      rw [pciCandidate_eq (by omega)]
      simp only [bind, Except.bind, pure, Except.pure]
      split
      · exact ⟨i, rfl⟩
      · exact ih (i + 512)
    · exact ⟨0, rfl⟩

/-- On a non-empty buffer `findPCIExpansionROM` makes no out-of-bounds read. -/
theorem findPCIExpansionROM_ok (rom : List Byte) (h : rom ≠ []) :
    ∃ o, findPCIExpansionROM rom = .ok o :=
  findPCILoop_ok rom _ (pci_bound_le rom h) _ _

theorem findPCILoop_found (rom : List Byte) (bound : Nat) (hb : bound + 1 ≤ rom.length) :
    ∀ (n m i : Nat), m < n → i + 512 * m < bound → pciMatch rom (i + 512 * m) →
      (∀ t, t < m → ¬ pciMatch rom (i + 512 * t)) →
      findPCILoop rom bound n i = .ok (i + 512 * m) := by
  intro n
  induction n with
  | zero => intro m i h; omega
  | succ n ih =>
    intro m i hm hlt hmatch hbefore
    unfold findPCILoop
    rw [if_pos (by omega), pciCandidate_eq (by omega)]
    simp only [bind, Except.bind, pure, Except.pure]
    cases m with
    | zero => simp [show pciMatch rom i from by simpa using hmatch]
    | succ m =>
      have h0 : ¬ pciMatch rom i := by simpa using hbefore 0 (by omega)
      simp only [h0, decide_False, Bool.false_eq_true, if_false]
      have e : i + 512 * (m + 1) = i + 512 + 512 * m := by omega
      rw [e] at hlt hmatch ⊢
      apply ih m (i + 512) (by omega) hlt hmatch
      intro t ht
      have := hbefore (t + 1) (by omega)
      have e2 : i + 512 * (t + 1) = i + 512 + 512 * t := by omega
      rwa [e2] at this

theorem findPCILoop_none (rom : List Byte) (bound : Nat) (hb : bound + 1 ≤ rom.length) :
    ∀ (n i : Nat), (∀ t, i + 512 * t < bound → ¬ pciMatch rom (i + 512 * t)) →
      findPCILoop rom bound n i = .ok 0 := by
  intro n
  induction n with
  | zero => intro i _; rfl
  | succ n ih =>
    intro i hall
    unfold findPCILoop
    split
    · rename_i hi
      rw [pciCandidate_eq (by omega)]
      have h0 : ¬ pciMatch rom i := by simpa using hall 0 (by simpa using hi)
      simp only [bind, Except.bind, pure, Except.pure, h0, decide_False, Bool.false_eq_true,
        if_false]
      apply ih (i + 512)
      intro t ht
      have e : i + 512 + 512 * t = i + 512 * (t + 1) := by omega
      rw [e] at ht ⊢
      exact hall (t + 1) ht
    · rfl

/-- Behaviour of `findPCIExpansionROM` as coded: the first multiple of 512 that
carries the signature and whose "PCIR" bytes end strictly before the buffer end. -/
theorem findPCIExpansionROM_first_match (rom : List Byte) (m : Nat)
    (hmax : rom.length < 2 ^ 64) (hm : 512 * m + 1 < rom.length)
    (hmatch : pciMatch rom (512 * m)) (hbefore : ∀ t, t < m → ¬ pciMatch rom (512 * t)) :
    findPCIExpansionROM rom = .ok (512 * m) := by
  have hne : rom ≠ [] := by intro h; simp [h] at hm
  unfold findPCIExpansionROM
  simp only [pci_bound_eq hne hmax]
  have := findPCILoop_found rom (rom.length - 1) (by omega) ((rom.length - 1) / 512 + 1) m 0
    (by
      have : 512 * m ≤ rom.length - 1 := by omega
      have := Nat.le_div_iff_mul_le (k := 512) (x := m) (y := rom.length - 1) (by decide)
      omega)
    (by omega) (by simpa using hmatch) (by simpa using hbefore)
  simpa using this

/-- Behaviour of `findPCIExpansionROM` as coded: 0 when no offset matches. -/
theorem findPCIExpansionROM_default (rom : List Byte) (hne : rom ≠ [])
    (hall : ∀ t, ¬ pciMatch rom (512 * t)) :
    findPCIExpansionROM rom = .ok 0 := by
  unfold findPCIExpansionROM
  apply findPCILoop_none rom _ (pci_bound_le rom hne)
  intro t _
  simpa using hall t

set_option maxRecDepth 100000 in
/-- C4 (code defect): in the 542-byte `pcirAtEndRom` offset 512 meets every
condition of the claim with `o + p + 4 = length`, and no other offset does, yet
`findPCIExpansionROM` returns 0: the code tests `i + pcirOffset + 4 < size`. -/
theorem C4_findPCIExpansionROM_rejects_pcir_at_end :
    pcirAtEndRom.length = 542 ∧ pciAcceptedSpec pcirAtEndRom 512 ∧
    512 + pcirPointer pcirAtEndRom 512 + 4 = pcirAtEndRom.length ∧
    ¬ pciAcceptedSpec pcirAtEndRom 0 ∧
    findPCIExpansionROM pcirAtEndRom = .ok 0 := by
  decide

/-! ## readString -/

theorem readStringLoop_eq (rom : List Byte) (limit : Nat) :
    ∀ (n i : Nat) (result : List Byte), limit - i ≤ n →
      readStringLoop rom limit n i result =
        result ++ ((rom.drop i).take (limit - i)).takeWhile (fun b => b ≠ 0) := by
  intro n
  induction n with
  | zero =>
    intro i result h
    have : limit - i = 0 := by omega
    simp [readStringLoop, this]
  | succ n ih =>
    intro i result h
    unfold readStringLoop
    by_cases hlen : i < rom.length
    · rw [dif_pos hlen]
      by_cases hlim : i < limit
      · rw [if_pos hlim]
        obtain ⟨d, hd⟩ : ∃ d, limit - i = d + 1 := ⟨limit - i - 1, by omega⟩
        rw [hd, List.drop_eq_getElem_cons hlen, List.take_succ_cons]
        by_cases hz : rom[i] = 0
        · simp [hz]
        · rw [if_neg hz, ih (i + 1) _ (by omega)]
          have : limit - (i + 1) = d := by omega
          simp [this, hz]
      · rw [if_neg hlim]
        have : limit - i = 0 := by omega
        simp [this]
    · rw [dif_neg hlen]
      simp [List.drop_eq_nil_of_le (Nat.le_of_not_lt hlen)]

theorem nonZeroRun_prefix (rom : List Byte) (offset maxLength : Nat) :
    nonZeroRun rom offset maxLength <+: rom.drop offset :=
  (List.takeWhile_prefix _).trans (List.take_prefix _ _)

theorem nonZeroRun_getElem? (rom : List Byte) (offset maxLength k : Nat)
    (hk : k < (nonZeroRun rom offset maxLength).length) :
    offset + k < rom.length ∧ (nonZeroRun rom offset maxLength)[k]? = rom[offset + k]? := by
  obtain ⟨t, ht⟩ := nonZeroRun_prefix rom offset maxLength
  have hlen : (nonZeroRun rom offset maxLength).length ≤ (rom.drop offset).length := by
    rw [← ht]; simp
  have h1 : offset + k < rom.length := by
    rw [List.length_drop] at hlen; omega
  refine ⟨h1, ?_⟩
  have h2 : (rom.drop offset)[k]? = rom[offset + k]? := List.getElem?_drop _ _ _
  rw [← h2, ← ht, List.getElem?_append_left hk]

/-- C7 (amended): `readString` returns "NULL" if `offset = 0` or
`offset ≥ length`; otherwise, with `s` the longest run of non-zero bytes from
`offset` inside `[offset, min(length, offset + maxLength))`, it returns "NULL"
if `s` is empty and `s` otherwise.  The result never contains a zero byte; the
run `s`, hence every result that is not the literal "NULL", is at most
`maxLength` long and made of bytes of the buffer at `offset, offset + 1, ...`.
Offset 0 gives "NULL", an offset at a zero byte gives "NULL", and "ABC\0DEF"
with `maxLength = 10` gives "ABC". -/
theorem C7_readString_spec (rom : List Byte) (offset maxLength : Nat) :
    readString rom offset maxLength =
      (if offset = 0 ∨ offset ≥ rom.length then nullString
       else if nonZeroRun rom offset maxLength = [] then nullString
       else nonZeroRun rom offset maxLength) ∧
    (∀ b ∈ readString rom offset maxLength, b ≠ 0) ∧
    (nonZeroRun rom offset maxLength).length ≤ maxLength ∧
    (∀ k, k < (nonZeroRun rom offset maxLength).length →
      offset + k < rom.length ∧
      (nonZeroRun rom offset maxLength)[k]? = rom[offset + k]?) ∧
    readString abcRom 0 10 = nullString ∧ readString abcRom 4 10 = nullString ∧
    readString abcRom 1 10 = [0x41, 0x42, 0x43] := by
  have heq : readString rom offset maxLength =
      (if offset = 0 ∨ offset ≥ rom.length then nullString
       else if nonZeroRun rom offset maxLength = [] then nullString
       else nonZeroRun rom offset maxLength) := by
    unfold readString
    split
    · rfl
    · rw [readStringLoop_eq rom _ maxLength offset [] (by omega)]
      have : offset + maxLength - offset = maxLength := by omega
      simp only [this, List.nil_append]
      rfl
  have hnz : ∀ b ∈ nullString, b ≠ (0 : Byte) := by
    intro b hb
    simp only [nullString, List.mem_cons, List.mem_nil_iff, or_false] at hb
    rcases hb with rfl | rfl | rfl | rfl <;> decide
  have hrun : ∀ b ∈ nonZeroRun rom offset maxLength, b ≠ (0 : Byte) := by
    intro b hb
    have := List.mem_takeWhile_imp hb
    simpa using this
  refine ⟨heq, ?_, ?_, ?_, by decide, by decide, by decide⟩
  · rw [heq]
    split
    · exact hnz
    · split
      · exact hnz
      · exact hrun
  · unfold nonZeroRun
    exact le_trans (List.takeWhile_prefix _).length_le (List.length_take_le _ _)
  · exact fun k hk => nonZeroRun_getElem? rom offset maxLength k hk

/-- C7 as stated fails: with the offset at a zero byte and `maxLength = 2` the
result is the literal "NULL", four characters long. -/
theorem C7_null_literal_longer_than_maxLength :
    readString abcRom 4 2 = nullString ∧ ¬ (readString abcRom 4 2).length ≤ 2 := by
  decide

/-! ## Generic payloads and the no-data check -/

/-- C6: for 16-bit `dataPointer` and `dataSize`, `parseGenericPointers` renders
the raw bytes at `[dataPointer, dataPointer + dataSize)` exactly when
`dataPointer + dataSize ≤ length` (exact sum); otherwise its output is the
label and the boundary marker whatever the bytes of the buffer are. -/
theorem C6_generic_payload_bounds (rom : List Byte) (dataPointer dataSize : Nat) (name : String)
    (hp : dataPointer < 2 ^ 16) (hs : dataSize < 2 ^ 16) :
    (dataPointer + dataSize ≤ rom.length →
      parseGenericPointers rom dataPointer dataSize name =
        [Out.genericLabel name, Out.rawDataLabel,
         Out.hexDump ((rom.drop dataPointer).take dataSize) "        "] ∧
      ((rom.drop dataPointer).take dataSize).length = dataSize ∧
      ∀ k, k < dataSize →
        ((rom.drop dataPointer).take dataSize)[k]? = rom[dataPointer + k]?) ∧
    (rom.length < dataPointer + dataSize →
      ∀ other : List Byte, other.length = rom.length →
        parseGenericPointers other dataPointer dataSize name =
          [Out.genericLabel name, Out.beyondBoundary]) ∧
    ((∃ data pfx, Out.hexDump data pfx ∈ parseGenericPointers rom dataPointer dataSize name) ↔
      dataPointer + dataSize ≤ rom.length) := by
  have _ := hp
  have _ := hs
  refine ⟨?_, ?_, ?_⟩
  · intro h
    refine ⟨by simp [parseGenericPointers, h], ?_, ?_⟩
    · rw [List.length_take, List.length_drop]; omega
    · intro k hk
      rw [List.getElem?_take_of_lt hk, List.getElem?_drop]
  · intro h other hlen
    have : ¬ dataPointer + dataSize ≤ other.length := by omega
    simp [parseGenericPointers, this]
  · unfold parseGenericPointers
    by_cases h : dataPointer + dataSize ≤ rom.length
    · simp [h]
    · simp [h]

/-- C6 witness: in an 8-byte buffer a payload at 5 of size 3 ends exactly at the
buffer end. -/
theorem C6_generic_payload_bounds_witness :
    parseGenericPointers abcRom 5 3 "X" =
        [Out.genericLabel "X", Out.rawDataLabel, Out.hexDump [0x44, 0x45, 0x46] "        "] ∧
    parseGenericPointers abcRom 5 4 "X" = [Out.genericLabel "X", Out.beyondBoundary] := by
  have h := C6_generic_payload_bounds abcRom 5 3 "X" (by decide) (by decide)
  have h' := C6_generic_payload_bounds abcRom 5 4 "X" (by decide) (by decide)
  exact ⟨(h.1 (by decide)).1, h'.2.1 (by decide) abcRom rfl⟩

/-- C8: a token whose `dataPointer` is 0 or whose `dataSize` is 0 gets the
"no data" marker as its whole payload block, whatever its id and version and
whatever the buffer holds. -/
theorem C8_no_data_precedes_dispatch (sizeofBIOSData_v1 : Nat) (rom : List Byte) (i : Nat)
    (token : BITToken) (h : token.dataPointer = 0 ∨ token.dataSize = 0) :
    tokenPayload sizeofBIOSData_v1 rom token = ([Out.noData], none) ∧
    tokenBlock sizeofBIOSData_v1 rom i token =
      ([Out.tokenTitle i (tokenName token.id) token.id, Out.dataVersion token.dataVersion,
        Out.dataSize token.dataSize, Out.dataPointer token.dataPointer,
        Out.noData, Out.newline], none) := by
  have hp : tokenPayload sizeofBIOSData_v1 rom token = ([Out.noData], none) := by
    unfold tokenPayload
    rw [if_neg]
    rcases h with h | h <;> simp [h]
  exact ⟨hp, by simp [tokenBlock, tokenLines, hp]⟩

/-- C8 witness: a BIOSDATA (0x42) version 1 token with `dataPointer = 0` and
`dataSize = 0`. -/
theorem C8_no_data_precedes_dispatch_witness :
    tokenPayload 17 abcRom ⟨0x42, 1, 0, 0⟩ = ([Out.noData], none) :=
  (C8_no_data_precedes_dispatch 17 abcRom 0 ⟨0x42, 1, 0, 0⟩ (Or.inl rfl)).1

/-! ## The token walk -/

theorem readBITToken_of_fit {rom : List Byte} {t : Nat} (h : t + 6 ≤ rom.length) :
    readBITToken rom t = .ok (tokenAt rom t) := by
  unfold readBITToken
  rw [readU8_of_lt (by omega), readU8_of_lt (by omega), readU16_of_lt (by omega),
    readU16_of_lt (by omega)]
  rfl

theorem fitCount_succ (rom : List Byte) (first tokenSize n : Nat) :
    fitCount rom first tokenSize (n + 1) =
      if first + 6 ≤ rom.length then 1 + fitCount rom (first + tokenSize) tokenSize n
      else 0 := by
  unfold fitCount
  rw [List.range_succ_eq_map]
  by_cases h : first + 6 ≤ rom.length
  · rw [if_pos h, List.filter_cons_of_pos (by simpa using h), List.filter_map,
      List.length_cons, List.length_map, Nat.add_comm]
    congr 3
    funext k
    simp only [Function.comp, Nat.succ_eq_add_one, decide_eq_decide]
    have : first + (k + 1) * tokenSize = first + tokenSize + k * tokenSize := by
      rw [Nat.add_mul]; omega
    rw [this]
  · rw [if_neg h, List.length_eq_zero, List.filter_eq_nil_iff]
    intro k _
    have : first ≤ first + k * tokenSize := Nat.le_add_right _ _
    simp only [decide_eq_true_eq]
    omega

theorem fitCount_le (rom : List Byte) (first tokenSize n : Nat) :
    fitCount rom first tokenSize n ≤ n := by
  unfold fitCount
  exact le_trans (List.length_filter_le _ _) (by simp)

theorem fitCount_fits (rom : List Byte) (tokenSize : Nat) :
    ∀ (n first k : Nat), k < fitCount rom first tokenSize n →
      first + k * tokenSize + 6 ≤ rom.length := by
  intro n
  induction n with
  | zero => intro first k h; simp [fitCount] at h
  | succ n ih =>
    intro first k h
    rw [fitCount_succ] at h
    split at h
    · rename_i hfit
      cases k with
      | zero => simpa using hfit
      | succ k =>
        have := ih (first + tokenSize) k (by omega)
        have e : first + (k + 1) * tokenSize = first + tokenSize + k * tokenSize := by
          rw [Nat.add_mul]; omega
        rw [e]; exact this
    · omega

theorem fitCount_stops (rom : List Byte) (tokenSize : Nat) :
    ∀ (n first : Nat), fitCount rom first tokenSize n < n →
      ¬ first + fitCount rom first tokenSize n * tokenSize + 6 ≤ rom.length := by
  intro n
  induction n with
  | zero => intro first h; omega
  | succ n ih =>
    intro first h
    rw [fitCount_succ] at h ⊢
    split at h
    · rename_i hfit
      rw [if_pos hfit]
      have := ih (first + tokenSize) (by omega)
      have e : first + (1 + fitCount rom (first + tokenSize) tokenSize n) * tokenSize =
          first + tokenSize + fitCount rom (first + tokenSize) tokenSize n * tokenSize := by
        rw [Nat.add_mul]; omega
      rw [e]; exact this
    · rename_i hfit
      rw [if_neg hfit]
      simpa using hfit

theorem tokenBlock_of_none {v : Nat} {rom : List Byte} {token : BITToken} (i : Nat)
    (h : (tokenPayload v rom token).2 = none) :
    tokenBlock v rom i token =
      (tokenLines i token ++ (tokenPayload v rom token).1 ++ [Out.newline], none) := by
  unfold tokenBlock
  generalize tokenPayload v rom token = p at h
  obtain ⟨out, f⟩ := p
  simp only at h
  subst h
  rfl

theorem tokenBlock_of_some {v : Nat} {rom : List Byte} {token : BITToken} (i : Nat) {f : Nat}
    (h : (tokenPayload v rom token).2 = some f) :
    tokenBlock v rom i token = (tokenLines i token ++ (tokenPayload v rom token).1, some f) := by
  unfold tokenBlock
  generalize tokenPayload v rom token = p at h
  obtain ⟨out, g⟩ := p
  simp only at h
  subst h
  rfl

theorem blocksFrom_succ (v : Nat) (rom : List Byte) (first tokenSize i m : Nat) :
    blocksFrom v rom first tokenSize i (m + 1) =
      (tokenBlock v rom i (tokenAt rom first)).1 ++
        blocksFrom v rom (first + tokenSize) tokenSize (i + 1) m := by
  unfold blocksFrom
  rw [List.range_succ_eq_map, List.flatMap_cons, List.flatMap_map]
  simp only [Nat.zero_mul, Nat.add_zero, Nat.succ_eq_add_one]
  congr 1
  congr 1
  funext k
  have e1 : i + (k + 1) = i + 1 + k := by omega
  have e2 : first + (k + 1) * tokenSize = first + tokenSize + k * tokenSize := by
    rw [Nat.add_mul]; omega
  rw [e1, e2]

theorem linesFrom_succ (rom : List Byte) (first tokenSize i j : Nat) :
    linesFrom rom first tokenSize i (j + 1) =
      tokenLines i (tokenAt rom first) ++ linesFrom rom (first + tokenSize) tokenSize (i + 1) j := by
  unfold linesFrom
  rw [List.range_succ_eq_map, List.flatMap_cons, List.flatMap_map]
  simp only [Nat.zero_mul, Nat.add_zero, Nat.succ_eq_add_one]
  congr 1
  congr 1
  funext k
  have e1 : i + (k + 1) = i + 1 + k := by omega
  have e2 : first + (k + 1) * tokenSize = first + tokenSize + k * tokenSize := by
    rw [Nat.add_mul]; omega
  rw [e1, e2]

/-- When no payload decoder of a fitting record reads out of bounds, the token
loop runs to its end and outputs the fitting blocks, then the truncation marker
if a record does not fit. -/
theorem parseTokens_eq (v : Nat) (rom : List Byte) (tokenSize : Nat) :
    ∀ (n i first : Nat),
      (∀ k, k < fitCount rom first tokenSize n →
        (tokenPayload v rom (tokenAt rom (first + k * tokenSize))).2 = none) →
      parseTokens v rom tokenSize n i first =
        (blocksFrom v rom first tokenSize i (fitCount rom first tokenSize n) ++
          (if fitCount rom first tokenSize n < n
           then [Out.tokenBeyond (i + fitCount rom first tokenSize n)] else []), none) := by
  intro n
  induction n with
  | zero => intro i first _; simp [parseTokens, fitCount, blocksFrom]
  | succ n ih =>
    intro i first hno
    unfold parseTokens
    rw [fitCount_succ] at hno ⊢
    by_cases hfit : first + 6 ≤ rom.length
    · rw [if_pos hfit] at hno
      have h0 : (tokenPayload v rom (tokenAt rom first)).2 = none := by
        have := hno 0 (by omega)
        simpa using this
      have hrest : ∀ k, k < fitCount rom (first + tokenSize) tokenSize n →
          (tokenPayload v rom (tokenAt rom (first + tokenSize + k * tokenSize))).2 = none := by
        intro k hk
        have := hno (k + 1) (by omega)
        have e : first + (k + 1) * tokenSize = first + tokenSize + k * tokenSize := by
          rw [Nat.add_mul]; omega
        rwa [e] at this
      rw [if_neg (by unfold sizeofBITToken; omega), if_pos hfit, readBITToken_of_fit hfit,
        Nat.add_comm 1, blocksFrom_succ]
      simp only [tokenBlock_of_none i h0, ih (i + 1) (first + tokenSize) hrest]
      have e : i + 1 + fitCount rom (first + tokenSize) tokenSize n =
          i + (fitCount rom (first + tokenSize) tokenSize n + 1) := by omega
      by_cases hlt : fitCount rom (first + tokenSize) tokenSize n < n
      · rw [if_pos hlt,
          if_pos (show fitCount rom (first + tokenSize) tokenSize n + 1 < n + 1 by omega), e]
        simp only [List.append_assoc]
      · rw [if_neg hlt,
          if_neg (show ¬ fitCount rom (first + tokenSize) tokenSize n + 1 < n + 1 by omega)]
        simp only [List.append_assoc, List.append_nil]
    · rw [if_pos (by unfold sizeofBITToken; omega), if_neg hfit]
      simp [blocksFrom]

/-! ### Outputs of a payload block -/

theorem emitLines_mem (p : Out → Prop) :
    ∀ l : List (Except Nat Out), (∀ x ∈ l, ∀ o, x = .ok o → p o) →
      ∀ e ∈ (emitLines l).1, p e := by
  intro l
  induction l with
  | nil => intro _ e he; simp [emitLines] at he
  | cons x t ih =>
    intro h e he
    cases x with
    | error i => simp [emitLines] at he
    | ok o =>
      simp only [emitLines, List.mem_cons] at he
      rcases he with rfl | he
      · exact h (.ok e) (List.mem_cons_self _ _) e rfl
      · exact ih (fun y hy => h y (List.mem_cons_of_mem _ hy)) e he

theorem stringLine_ok {rom : List Byte} {p k : Nat} {label : String} {o : Out}
    (h : stringLine rom p label k = .ok o) : ∃ s, o = Out.stringLine label s := by
  unfold stringLine at h
  cases h1 : readU16 rom (p + 3 * k) with
  | error e => simp [h1, bind, Except.bind] at h
  | ok ptr =>
    cases h2 : readU8 rom (p + 3 * k + 2) with
    | error e => simp [h1, h2, bind, Except.bind] at h
    | ok len =>
      simp only [h1, h2, bind, Except.bind, pure, Except.pure, Except.ok.injEq] at h
      exact ⟨_, h.symm⟩

theorem stringLines_isPayload (rom : List Byte) (q : Nat) (labels : List String) :
    ∀ e ∈ (stringLines rom q labels).1, e.isPayload = true := by
  unfold stringLines
  apply emitLines_mem (fun e => e.isPayload = true)
  intro x hx o ho
  rw [List.mem_map] at hx
  obtain ⟨kl, _, rfl⟩ := hx
  obtain ⟨s, rfl⟩ := stringLine_ok ho
  rfl

/-- Every output of a payload block is a payload line. -/
theorem tokenPayload_isPayload (v : Nat) (rom : List Byte) (token : BITToken) :
    ∀ e ∈ (tokenPayload v rom token).1, e.isPayload = true := by
  unfold tokenPayload
  split
  · split
    · unfold parseBIOSData
      split
      · split <;> simp [Out.isPayload]
      · split
        · split <;> simp [Out.isPayload]
        · simp [Out.isPayload]
    · split
      · unfold parseStringPtrs
        split
        · intro e he
          simp only [List.mem_cons] at he
          rcases he with rfl | he
          · rfl
          · exact stringLines_isPayload _ _ _ e he
        · split
          · intro e he
            simp only [List.mem_cons] at he
            rcases he with rfl | he
            · rfl
            · exact stringLines_isPayload _ _ _ e he
          · simp [Out.isPayload]
      · split
        · simp [Out.isPayload]
        · unfold parseGenericPointers
          split <;> simp [Out.isPayload]
  · simp [Out.isPayload]

theorem filter_payload_eq_nil (p : Out → Bool) (hp : ∀ e, e.isPayload = true → p e = false)
    (v : Nat) (rom : List Byte) (token : BITToken) :
    (tokenPayload v rom token).1.filter p = [] := by
  rw [List.filter_eq_nil_iff]
  intro e he
  rw [hp e (tokenPayload_isPayload v rom token e he)]
  exact Bool.false_ne_true

theorem isTokenLine_of_isPayload (e : Out) (h : e.isPayload = true) : e.isTokenLine = false := by
  cases e <;> first | rfl | (simp [Out.isPayload] at h)

theorem tokenBlock_filter_lines (v : Nat) (rom : List Byte) (i : Nat) (token : BITToken) :
    (tokenBlock v rom i token).1.filter Out.isTokenLine = tokenLines i token := by
  have hpay := filter_payload_eq_nil Out.isTokenLine isTokenLine_of_isPayload v rom token
  cases hf : (tokenPayload v rom token).2 with
  | none =>
    rw [tokenBlock_of_none i hf]
    simp only [List.filter_append, hpay, List.append_nil]
    rfl
  | some f =>
    rw [tokenBlock_of_some i hf]
    simp only [List.filter_append, hpay, List.append_nil]
    rfl

/-- Whatever the payloads do, the record lines in the output of the token loop
are those of the records `0 .. j - 1` in order, for some `j` not above the
number of fitting records, and `j` is that number when the loop runs to its end. -/
theorem parseTokens_lines (v : Nat) (rom : List Byte) (tokenSize : Nat) :
    ∀ (n i first : Nat), ∃ j, j ≤ fitCount rom first tokenSize n ∧
      (parseTokens v rom tokenSize n i first).1.filter Out.isTokenLine =
        linesFrom rom first tokenSize i j ∧
      ((parseTokens v rom tokenSize n i first).2 = none → j = fitCount rom first tokenSize n) := by
  intro n
  induction n with
  | zero =>
    intro i first
    exact ⟨0, Nat.zero_le _, by simp [parseTokens, linesFrom], fun _ => by simp [fitCount]⟩
  | succ n ih =>
    intro i first
    unfold parseTokens
    rw [fitCount_succ]
    by_cases hfit : first + 6 ≤ rom.length
    · rw [if_pos hfit, if_neg (show ¬ first + sizeofBITToken > rom.length by
        unfold sizeofBITToken; omega), readBITToken_of_fit hfit]
      have hlines := tokenBlock_filter_lines v rom i (tokenAt rom first)
      cases hb : tokenBlock v rom i (tokenAt rom first) with
      | mk block fault =>
        rw [hb] at hlines
        cases fault with
        | some f =>
          simp only [hb]
          refine ⟨1, by omega, ?_, fun h => by simp at h⟩
          rw [linesFrom_succ]
          simp only [linesFrom, List.range_zero, List.flatMap_nil, List.append_nil]
          exact hlines
        | none =>
          simp only [hb]
          obtain ⟨j, hj, hl, hend⟩ := ih (i + 1) (first + tokenSize)
          refine ⟨j + 1, by omega, ?_, fun h => ?_⟩
          · rw [List.filter_append, linesFrom_succ, hl]
            congr 1
          · have := hend h
            omega
    · rw [if_neg hfit, if_pos (show first + sizeofBITToken > rom.length by
        unfold sizeofBITToken; omega)]
      exact ⟨0, Nat.le_refl 0, by simp [linesFrom, Out.isTokenLine], fun _ => rfl⟩

/-! ## parse -/

theorem ok_bind {ε α β : Type} (a : α) (f : α → Except ε β) :
    (Except.ok a >>= f) = f a := rfl

/-! ### Payload decoders reading inside the buffer -/

theorem readBIOSData_v1_of_inside {rom : List Byte} {p : Nat} (h : p + 17 ≤ rom.length) :
    readBIOSData_v1 rom p = .ok
      { biosVersion := le32At rom p
        biosOEMVersion := byteAt rom (p + 4)
        biosChecksum := byteAt rom (p + 5)
        int15PostCallbacks := le16At rom (p + 6)
        int15SystemCallbacks := le16At rom (p + 8)
        biosBoardId := le16At rom (p + 10)
        frameCount := le16At rom (p + 12)
        biosmodDate := byteAt rom (p + 14) + 256 * byteAt rom (p + 15) +
          65536 * byteAt rom (p + 16) } := by
  unfold readBIOSData_v1
  rw [readU32_of_lt (by omega), ok_bind, readU8_of_lt (by omega), ok_bind,
    readU8_of_lt (by omega), ok_bind, readU16_of_lt (by omega), ok_bind,
    readU16_of_lt (by omega), ok_bind, readU16_of_lt (by omega), ok_bind,
    readU16_of_lt (by omega), ok_bind, readU8_of_lt (by omega), ok_bind,
    readU8_of_lt (by omega), ok_bind, readU8_of_lt (by omega), ok_bind]
  rfl

theorem readBIOSData_v2_of_inside {rom : List Byte} {p : Nat} (h : p + 33 ≤ rom.length) :
    ∃ d, readBIOSData_v2 rom p = .ok d := by
  unfold readBIOSData_v2
  rw [readU32_of_lt (by omega), ok_bind, readU8_of_lt (by omega), ok_bind,
    readU8_of_lt (by omega), ok_bind, readU16_of_lt (by omega), ok_bind,
    readU16_of_lt (by omega), ok_bind, readU16_of_lt (by omega), ok_bind,
    readU8_of_lt (by omega), ok_bind, readU8_of_lt (by omega), ok_bind,
    readU8_of_lt (by omega), ok_bind, readU8_of_lt (by omega), ok_bind,
    readU16_of_lt (by omega), ok_bind, readU16_of_lt (by omega), ok_bind,
    readU16_of_lt (by omega), ok_bind, readU8_of_lt (by omega), ok_bind,
    readU8_of_lt (by omega), ok_bind, readU8_of_lt (by omega), ok_bind,
    readU32_of_lt (by omega), ok_bind]
  exact ⟨_, rfl⟩

theorem stringLine_of_inside {rom : List Byte} {p k : Nat} (label : String)
    (h : p + 3 * k + 3 ≤ rom.length) :
    stringLine rom p label k = .ok (Out.stringLine label (stringOf rom p k)) := by
  unfold stringLine
  rw [readU16_of_lt (by omega), ok_bind, readU8_of_lt (by omega), ok_bind]
  rfl

theorem emitLines_of_inside (rom : List Byte) (p : Nat) :
    ∀ (labels : List String) (k0 : Nat), p + 3 * (k0 + labels.length) ≤ rom.length →
      emitLines ((labels.enumFrom k0).map fun kl => stringLine rom p kl.2 kl.1) =
        ((labels.enumFrom k0).map fun kl => Out.stringLine kl.2 (stringOf rom p kl.1), none) := by
  intro labels
  induction labels with
  | nil => intro k0 _; rfl
  | cons l t ih =>
    intro k0 h
    simp only [List.length_cons] at h
    simp only [List.enumFrom, List.map_cons]
    rw [stringLine_of_inside l (by omega)]
    simp only [emitLines]
    rw [ih (k0 + 1) (by omega)]

theorem stringLines_of_inside (rom : List Byte) (p : Nat) (labels : List String)
    (h : p + 3 * labels.length ≤ rom.length) :
    stringLines rom p labels =
      (labels.enum.map fun kl => Out.stringLine kl.2 (stringOf rom p kl.1), none) := by
  unfold stringLines
  rw [List.enum, emitLines_of_inside rom p labels 0 (by omega)]

/-- A payload decoder whose reads lie inside the buffer runs to its end. -/
theorem tokenPayload_of_inside {v : Nat} {rom : List Byte} {token : BITToken}
    (h : payloadInside v rom token) : (tokenPayload v rom token).2 = none := by
  unfold payloadInside decoderReach at h
  unfold tokenPayload
  by_cases hd : token.dataPointer ≠ 0 ∧ token.dataSize > 0
  · rw [if_pos hd] at h ⊢
    by_cases h42 : token.id = 0x42
    · rw [if_pos h42] at h ⊢
      unfold parseBIOSData
      by_cases h1 : token.dataVersion = 1 ∧ token.dataSize ≥ v
      · rw [if_pos h1] at h ⊢
        rw [readBIOSData_v1_of_inside (by omega)]
      · rw [if_neg h1] at h ⊢
        by_cases h2 : token.dataVersion = 2 ∧ token.dataSize ≥ sizeofBIOSData_v2
        · rw [if_pos h2] at h ⊢
          obtain ⟨d, hd2⟩ := readBIOSData_v2_of_inside (show token.dataPointer + 33 ≤ rom.length
            by omega)
          rw [hd2]
        · rw [if_neg h2]
    · rw [if_neg h42] at h ⊢
      by_cases h53 : token.id = 0x53
      · rw [if_pos h53] at h ⊢
        unfold parseStringPtrs
        by_cases h1 : token.dataVersion = 1 ∧ token.dataSize ≥ sizeofStringPtrs_v1
        · rw [if_pos h1] at h ⊢
          rw [stringLines_of_inside rom _ _ (by
            simp only [stringLabels_v1, List.length_cons, List.length_nil]; omega)]
        · rw [if_neg h1] at h ⊢
          by_cases h2 : token.dataVersion = 2 ∧ token.dataSize ≥ sizeofStringPtrs_v2
          · rw [if_pos h2] at h ⊢
            rw [stringLines_of_inside rom _ _ (by
              simp only [stringLabels_v2, List.length_cons, List.length_nil]; omega)]
          · rw [if_neg h2]
      · rw [if_neg h53]
        by_cases h4e : token.id = 0x4E
        · rw [if_pos h4e]
        · rw [if_neg h4e]
  · rw [if_neg hd]

/-- When `decodersInside` holds, no payload of a fitting record faults. -/
theorem no_fault_of_decodersInside {v : Nat} {rom : List Byte} {h : Nat}
    (hd : decodersInside v rom h) :
    ∀ k, k < fitCount rom (h + byteAt rom (h + 8)) (byteAt rom (h + 9)) (byteAt rom (h + 10)) →
      (tokenPayload v rom
        (tokenAt rom (h + byteAt rom (h + 8) + k * byteAt rom (h + 9)))).2 = none :=
  fun k hk => tokenPayload_of_inside (hd k hk)

theorem findBITHeaderLoop_range (rom : List Byte) (bound : Nat) :
    ∀ (n i r : Nat), findBITHeaderLoop rom bound n i = .ok r →
      r = SIZE_MAX ∨ (i ≤ r ∧ r ≤ bound) := by
  intro n
  induction n with
  | zero =>
    intro i r h
    simp only [findBITHeaderLoop, Except.ok.injEq] at h
    exact Or.inl h.symm
  | succ n ih =>
    intro i r h
    unfold findBITHeaderLoop at h
    split at h
    · rename_i hle
      cases hc : bitCandidate rom i with
      | error e => simp [hc, bind, Except.bind] at h
      | ok b =>
        cases b with
        | true =>
          simp only [hc, bind, Except.bind, pure, Except.pure, if_true, Except.ok.injEq] at h
          exact Or.inr ⟨by omega, by omega⟩
        | false =>
          simp only [hc, bind, Except.bind, Bool.false_eq_true, if_false] at h
          rcases ih (i + 1) r h with h1 | ⟨h1, h2⟩
          · exact Or.inl h1
          · exact Or.inr ⟨by omega, h2⟩
    · simp only [Except.ok.injEq] at h
      exact Or.inl h.symm

/-- A header found in a buffer of at least 12 bytes lies, as a 12-byte record,
inside the buffer. -/
theorem findBITHeader_record_inside {rom : List Byte} {start h : Nat}
    (h12 : sizeofBITHeader ≤ rom.length) (hmax : rom.length < 2 ^ 64)
    (hh : findBITHeader rom start = .ok h) (hne : h ≠ SIZE_MAX) :
    h + sizeofBITHeader ≤ rom.length := by
  unfold findBITHeader at hh
  simp only [bit_bound_eq h12 hmax] at hh
  rcases findBITHeaderLoop_range rom _ _ _ _ hh with h1 | ⟨_, h2⟩
  · exact absurd h1 hne
  · omega

theorem readBITHeader_of_inside {rom : List Byte} {h : Nat}
    (hrec : h + sizeofBITHeader ≤ rom.length) :
    readBITHeader rom h = .ok
      { id := byteAt rom h + 256 * byteAt rom (h + 1)
        signature := [byteAt rom (h + 2), byteAt rom (h + 3), byteAt rom (h + 4),
          byteAt rom (h + 5)]
        bcdVersion := byteAt rom (h + 6) + 256 * byteAt rom (h + 7)
        headerSize := byteAt rom (h + 8)
        tokenSize := byteAt rom (h + 9)
        tokenEntries := byteAt rom (h + 10)
        checksum := byteAt rom (h + 11) } := by
  unfold sizeofBITHeader at hrec
  unfold readBITHeader
  rw [readU16_of_lt (by omega), ok_bind, readU8_of_lt (by omega), ok_bind,
    readU8_of_lt (by omega), ok_bind, readU8_of_lt (by omega), ok_bind,
    readU8_of_lt (by omega), ok_bind, readU16_of_lt (by omega), ok_bind,
    readU8_of_lt (by omega), ok_bind, readU8_of_lt (by omega), ok_bind,
    readU8_of_lt (by omega), ok_bind, readU8_of_lt (by omega), ok_bind]
  rfl

/-- The outcome of `parse` once a header is found at `h`, for every buffer: the
report is the header part followed by the output of the token loop, and the
result is true unless the token loop stops at an out-of-bounds read. -/
theorem parse_of_header (v : Nat) (filename : String) (rom : List Byte) (o h : Nat)
    (ho : findPCIExpansionROM rom = .ok o)
    (hh : findBITHeader rom o = .ok h) (hrec : h + sizeofBITHeader ≤ rom.length)
    (hmax : rom.length < 2 ^ 64) :
    parse v filename rom =
      { report := reportHeader filename rom o h ++
          (parseTokens v rom (byteAt rom (h + 9)) (byteAt rom (h + 10)) 0
            (h + byteAt rom (h + 8))).1
        result :=
          match (parseTokens v rom (byteAt rom (h + 9)) (byteAt rom (h + 10)) 0
            (h + byteAt rom (h + 8))).2 with
          | none => .ok true
          | some f => .error f } := by
  have hne : rom.isEmpty = false := by
    unfold sizeofBITHeader at hrec
    cases rom with
    | nil => simp at hrec
    | cons a t => rfl
  have hsm : h ≠ SIZE_MAX := by unfold sizeofBITHeader at hrec; unfold SIZE_MAX; omega
  unfold parse
  rw [hne, if_neg Bool.false_ne_true]
  simp only [ho, hh, if_neg hsm, readBITHeader_of_inside hrec, reportHeader, List.append_assoc,
    List.cons_append, List.nil_append]

/-- The outcome of `parse` once a header is found at `h` and no payload decoder
of a fitting record reads past the buffer: the fitting blocks, then the
truncation marker if a record does not fit, and result true. -/
theorem parse_of_header_inside (v : Nat) (filename : String) (rom : List Byte) (o h : Nat)
    (ho : findPCIExpansionROM rom = .ok o)
    (hh : findBITHeader rom o = .ok h) (hrec : h + sizeofBITHeader ≤ rom.length)
    (hmax : rom.length < 2 ^ 64) (hd : decodersInside v rom h) :
    parse v filename rom =
      { report := reportHeader filename rom o h ++
          (blocksFrom v rom (h + byteAt rom (h + 8)) (byteAt rom (h + 9)) 0
            (fittingTokens rom h) ++
           if fittingTokens rom h < byteAt rom (h + 10)
           then [Out.tokenBeyond (fittingTokens rom h)] else [])
        result := .ok true } := by
  rw [parse_of_header v filename rom o h ho hh hrec hmax,
    parseTokens_eq v rom _ _ 0 _ (no_fault_of_decodersInside hd)]
  simp only [fittingTokens, Nat.zero_add]
/-! ### Counting titles and markers -/

theorem countP_payload_eq_zero (p : Out → Bool) (hp : ∀ e, e.isPayload = true → p e = false)
    (v : Nat) (rom : List Byte) (token : BITToken) :
    (tokenPayload v rom token).1.countP p = 0 := by
  rw [List.countP_eq_length_filter, filter_payload_eq_nil p hp]
  rfl

theorem isTokenTitle_of_isPayload (e : Out) (h : e.isPayload = true) :
    e.isTokenTitle = false := by
  cases e <;> first | rfl | (simp [Out.isPayload] at h)

theorem isTokenBeyond_of_isPayload (e : Out) (h : e.isPayload = true) :
    e.isTokenBeyond = false := by
  cases e <;> first | rfl | (simp [Out.isPayload] at h)

theorem tokenBlock_count_title (v : Nat) (rom : List Byte) (i : Nat) (token : BITToken) :
    (tokenBlock v rom i token).1.countP Out.isTokenTitle = 1 := by
  have hpay := countP_payload_eq_zero Out.isTokenTitle isTokenTitle_of_isPayload v rom token
  cases hf : (tokenPayload v rom token).2 with
  | none =>
    rw [tokenBlock_of_none i hf]
    simp only [List.countP_append, hpay]
    rfl
  | some f =>
    rw [tokenBlock_of_some i hf]
    simp only [List.countP_append, hpay]
    rfl

theorem tokenBlock_count_beyond (v : Nat) (rom : List Byte) (i : Nat) (token : BITToken) :
    (tokenBlock v rom i token).1.countP Out.isTokenBeyond = 0 := by
  have hpay := countP_payload_eq_zero Out.isTokenBeyond isTokenBeyond_of_isPayload v rom token
  cases hf : (tokenPayload v rom token).2 with
  | none =>
    rw [tokenBlock_of_none i hf]
    simp only [List.countP_append, hpay]
    rfl
  | some f =>
    rw [tokenBlock_of_some i hf]
    simp only [List.countP_append, hpay]
    rfl

theorem blocksFrom_count (v : Nat) (rom : List Byte) (tokenSize : Nat) :
    ∀ (m first i : Nat),
      (blocksFrom v rom first tokenSize i m).countP Out.isTokenTitle = m ∧
      (blocksFrom v rom first tokenSize i m).countP Out.isTokenBeyond = 0 := by
  intro m
  induction m with
  | zero => intro first i; simp [blocksFrom]
  | succ m ih =>
    intro first i
    rw [blocksFrom_succ, List.countP_append, List.countP_append, tokenBlock_count_title,
      tokenBlock_count_beyond, (ih _ _).1, (ih _ _).2]
    omega

/-- Token enumeration when no payload decoder reads past the buffer: with a
found BIT header at `h` (the 12-byte record inside the buffer) declaring
`N = tokenEntries` tokens, of which `M = fittingTokens` have their 6-byte record
inside the buffer, `parse` returns true and its report is the header part, then
the `M` token blocks of indices `0 .. M - 1` in order, then, exactly when
`M < N`, one truncation marker naming `M` and nothing after it.  The report
holds exactly `M` token titles; every record decoded lies inside the buffer and,
when `M < N`, record `M` does not. -/
theorem token_enumeration_of_inside (v : Nat) (filename : String) (rom : List Byte) (o h : Nat)
    (hmax : rom.length < 2 ^ 64) (ho : findPCIExpansionROM rom = .ok o)
    (hh : findBITHeader rom o = .ok h) (hrec : h + sizeofBITHeader ≤ rom.length)
    (hd : decodersInside v rom h) :
    (parse v filename rom).result = .ok true ∧
      (parse v filename rom).report = reportHeader filename rom o h ++
        (blocksFrom v rom (h + byteAt rom (h + 8)) (byteAt rom (h + 9)) 0 (fittingTokens rom h) ++
          if fittingTokens rom h < byteAt rom (h + 10)
          then [Out.tokenBeyond (fittingTokens rom h)] else []) ∧
      (parse v filename rom).report.countP Out.isTokenTitle = fittingTokens rom h ∧
      (parse v filename rom).report.countP Out.isTokenBeyond =
        (if fittingTokens rom h < byteAt rom (h + 10) then 1 else 0) ∧
      fittingTokens rom h ≤ byteAt rom (h + 10) ∧
      (∀ i, i < fittingTokens rom h → tokenOffsetOf rom h i + sizeofBITToken ≤ rom.length) ∧
      (fittingTokens rom h < byteAt rom (h + 10) →
        ¬ tokenOffsetOf rom h (fittingTokens rom h) + sizeofBITToken ≤ rom.length) := by
  rw [parse_of_header_inside v filename rom o h ho hh hrec hmax hd]
  refine ⟨rfl, rfl, ?_, ?_, fitCount_le _ _ _ _, ?_, ?_⟩
  · simp only [List.countP_append, (blocksFrom_count v rom _ _ _ _).1]
    split <;> simp [reportHeader, reportHead, Out.isTokenTitle]
  · simp only [List.countP_append, (blocksFrom_count v rom _ _ _ _).2]
    split <;> simp [reportHeader, reportHead, Out.isTokenBeyond]
  · intro i hi
    exact fitCount_fits rom _ _ _ i hi
  · intro hlt
    exact fitCount_stops rom _ _ _ hlt

/-- In `truncatedRom`, which declares 3 tokens and holds one NOP record, the
report has one token title and one truncation marker, and the result is true. -/
theorem token_enumeration_truncated :
    (parse 17 "demo.rom" truncatedRom).result = .ok true ∧
    (parse 17 "demo.rom" truncatedRom).report.countP Out.isTokenTitle = 1 ∧
    (parse 17 "demo.rom" truncatedRom).report.countP Out.isTokenBeyond = 1 := by
  obtain ⟨h1, _, h3, h4, _⟩ := token_enumeration_of_inside 17 "demo.rom" truncatedRom 0 0
    (by decide) (by decide) (by decide) (by decide) (by decide)
  exact ⟨h1, h3.trans (by decide), h4.trans (by decide)⟩

/-- C5 (code defect): `wildRom` has a found header at 0 declaring `N = 3`
tokens of which `M = 1` fits, so the claim asks for one token block, then one
truncation marker naming index 1, and success.  The one fitting record is a
BIOSDATA version 1 token with `dataPointer = 0xFFF0`: `parseBIOSData` reads
index 65520 of the 20-byte buffer, the run stops inside block 0 after the
BIOSDATA label, and neither the truncation marker nor a result is produced. -/
theorem C5_token_enumeration_cut_by_decoder :
    wildRom.length = 20 ∧
    findPCIExpansionROM wildRom = .ok 0 ∧ findBITHeader wildRom 0 = .ok 0 ∧
    byteAt wildRom 10 = 3 ∧ fittingTokens wildRom 0 = 1 ∧
    tokenAt wildRom (tokenOffsetOf wildRom 0 0) = ⟨0x42, 1, 18, 0xFFF0⟩ ∧
    parse 17 "demo.rom" wildRom =
      { report := reportHeader "demo.rom" wildRom 0 0 ++
          [Out.tokenTitle 0 "BIT_TOKEN_BIOSDATA" 0x42, Out.dataVersion 1, Out.dataSize 18,
           Out.dataPointer 0xFFF0, Out.biosDataLabel 1]
        result := .error 65520 } ∧
    parse 18 "demo.rom" wildRom = parse 17 "demo.rom" wildRom ∧
    (parse 17 "demo.rom" wildRom).report.countP Out.isTokenBeyond = 0 ∧
    (parse 17 "demo.rom" wildRom).result ≠ .ok true := by
  refine ⟨by decide, by decide, by decide, by decide, by decide, by decide, by decide,
    by decide, by decide, by decide⟩
theorem isEmpty_eq_false_of_ne {rom : List Byte} (h : rom ≠ []) : rom.isEmpty = false := by
  cases rom with
  | nil => exact absurd rfl h
  | cons a t => rfl

/-- After a header was found, `parse` does not return `false`. -/
theorem parse_result_of_found (v : Nat) (filename : String) (rom : List Byte) (o h : Nat)
    (hne : rom ≠ []) (ho : findPCIExpansionROM rom = .ok o)
    (hh : findBITHeader rom o = .ok h) (hsm : h ≠ SIZE_MAX) :
    (parse v filename rom).result ≠ .ok false := by
  unfold parse
  rw [isEmpty_eq_false_of_ne hne, if_neg Bool.false_ne_true]
  simp only [ho, hh, if_neg hsm]
  cases readBITHeader rom h with
  | error e => simp
  | ok header =>
    simp only
    cases (parseTokens v rom header.tokenSize header.tokenEntries 0 (h + header.headerSize)).2 with
    | none => simp
    | some f => simp

/-- C9: `parse` returns failure exactly when the buffer is empty or
`findBITHeader`, started at the offset returned by `findPCIExpansionROM`,
returns not-found; and in a buffer of at least 12 bytes a found header makes
`parse` return success whatever the token records and payloads are, as long as
no BIOSDATA or STRING_PTRS decoder of a fitting record reads past the buffer
(a truncated record, a generic payload exceeding the buffer, an unrecognized
version/size combination and null or out-of-range string pointers are all
allowed). -/
theorem C9_only_fatal_conditions_fail (v : Nat) (filename : String) (rom : List Byte) :
    ((parse v filename rom).result = .ok false ↔
      (rom = [] ∨ ∃ o, findPCIExpansionROM rom = .ok o ∧
        findBITHeader rom o = .ok SIZE_MAX)) ∧
    (sizeofBITHeader ≤ rom.length → rom.length < 2 ^ 64 →
      ∀ o h, findPCIExpansionROM rom = .ok o → findBITHeader rom o = .ok h →
        h ≠ SIZE_MAX → decodersInside v rom h →
        (parse v filename rom).result = .ok true) := by
  constructor
  · constructor
    · intro hres
      by_cases hne : rom = []
      · exact Or.inl hne
      · right
        obtain ⟨o, ho⟩ := findPCIExpansionROM_ok rom hne
        refine ⟨o, ho, ?_⟩
        cases hh : findBITHeader rom o with
        | error e =>
          unfold parse at hres
          rw [isEmpty_eq_false_of_ne hne, if_neg Bool.false_ne_true] at hres
          simp only [ho, hh] at hres
          exact Except.noConfusion hres
        | ok h =>
          by_cases hsm : h = SIZE_MAX
          · rw [hsm]
          · exact absurd hres (parse_result_of_found v filename rom o h hne ho hh hsm)
    · rintro (hnil | ⟨o, ho, hh⟩)
      · subst hnil
        rfl
      · by_cases hne : rom = []
        · subst hne
          rfl
        · unfold parse
          rw [isEmpty_eq_false_of_ne hne, if_neg Bool.false_ne_true]
          simp only [ho, hh, if_pos]
  · intro h12 hmax o h ho hh hsm hd
    rw [parse_of_header_inside v filename rom o h ho hh
      (findBITHeader_record_inside h12 hmax hh hsm) hmax hd]

/-- C9 witness: `lenientRom` holds a generic payload exceeding the buffer, an
unrecognized BIOSDATA version, null and out-of-range string pointers and a
truncated fourth token record; `parse` returns success with all of them
rendered inline. -/
theorem C9_only_fatal_conditions_fail_witness :
    (parse 17 "demo.rom" lenientRom).result = .ok true ∧
    parse 17 "demo.rom" lenientRom =
      { report :=
          [Out.banner, Out.bannerRule, Out.file "demo.rom", Out.size 47, Out.pciRomOffset 0,
           Out.bitFound 0, Out.bitHeaderTitle,
           Out.bitHeaderFields 0xB8FF [0x42, 0x49, 0x54, 0] 0x100 27 6 4 0x3E,
           Out.bitTokensTitle,
           Out.tokenTitle 0 "BIT_TOKEN_PERF_PTRS" 0x50, Out.dataVersion 1, Out.dataSize 256,
           Out.dataPointer 240, Out.genericLabel "BIT_TOKEN_PERF_PTRS", Out.beyondBoundary,
           Out.newline,
           Out.tokenTitle 1 "BIT_TOKEN_BIOSDATA" 0x42, Out.dataVersion 9, Out.dataSize 4,
           Out.dataPointer 1, Out.biosDataLabel 9, Out.newline,
           Out.tokenTitle 2 "BIT_TOKEN_STRING_PTRS" 0x53, Out.dataVersion 1, Out.dataSize 15,
           Out.dataPointer 12, Out.stringPtrsLabel 1,
           Out.stringLine "Sign On Message" nullString, Out.stringLine "OEM String" nullString,
           Out.stringLine "OEM Vendor Name" nullString,
           Out.stringLine "OEM Product Name" nullString,
           Out.stringLine "OEM Product Revision" nullString, Out.newline,
           Out.tokenBeyond 3],
        result := .ok true } :=
  ⟨(C9_only_fatal_conditions_fail 17 "demo.rom" lenientRom).2 (by decide) (by decide) 0 0
      (by decide) (by decide) (by decide) (by decide),
   by decide⟩

/-! ## Degenerate header geometry -/

/-- C19: in a buffer of at least 12 bytes, if `i` is the least offset in
`[start, length - 12]` carrying the anchor and the signature and the
`headerSize` byte at `i + 8` is 0, then `findBITHeader` from `start` returns
`i`, whatever the checksum byte and the other bytes are. -/
theorem C19_zero_headerSize_accepted (rom : List Byte) (start i : Nat)
    (hmax : rom.length < 2 ^ 64) (hsi : start ≤ i) (hrec : i + sizeofBITHeader ≤ rom.length)
    (ha : hasAnchorSig rom i) (hz : byteAt rom (i + 8) = 0)
    (hleast : ∀ j, start ≤ j → j < i → ¬ hasAnchorSig rom j) :
    findBITHeader rom start = .ok i := by
  apply findBITHeader_first_valid rom start i hmax hsi
  · refine ⟨hrec, ha, ?_, ?_⟩
    · unfold regionInside
      rw [hz]
      unfold sizeofBITHeader at hrec
      omega
    · unfold headerChecksum
      rw [hz]
      rfl
  · intro j h1 h2
    exact Or.inl (hleast j h1 h2)

/-- C19 witness: `zeroSizeRom`, whose only anchor is at offset 3 and whose
checksum byte is `0x99`. -/
theorem C19_zero_headerSize_accepted_witness : findBITHeader zeroSizeRom 0 = .ok 3 :=
  C19_zero_headerSize_accepted zeroSizeRom 0 3 (by decide) (by decide) (by decide) (by decide)
    (by decide) (by decide)

theorem fitCount_zero_stride (rom : List Byte) (first n : Nat) :
    fitCount rom first 0 n = if first + 6 ≤ rom.length then n else 0 := by
  induction n generalizing first with
  | zero => simp [fitCount]
  | succ n ih =>
    rw [fitCount_succ, Nat.add_zero, ih]
    split <;> omega

theorem blocksFrom_zero_stride (v : Nat) (rom : List Byte) (first i m : Nat) :
    blocksFrom v rom first 0 i m =
      (List.range m).flatMap fun k => (tokenBlock v rom (i + k) (tokenAt rom first)).1 := by
  unfold blocksFrom
  simp only [Nat.mul_zero, Nat.add_zero]

theorem tokenBlock_tail (v : Nat) (rom : List Byte) (i j : Nat) (token : BITToken) :
    (tokenBlock v rom i token).1.tail = (tokenBlock v rom j token).1.tail ∧
    (tokenBlock v rom i token).2 = (tokenBlock v rom j token).2 := by
  cases hf : (tokenPayload v rom token).2 with
  | none => rw [tokenBlock_of_none i hf, tokenBlock_of_none j hf]; exact ⟨rfl, rfl⟩
  | some f => rw [tokenBlock_of_some i hf, tokenBlock_of_some j hf]; exact ⟨rfl, rfl⟩

/-- A zero `tokenSize` when the one record's payload decoder reads inside the
buffer: with a found header at `h` whose `tokenSize` byte is 0 and whose
`tokenEntries` is `N`, if the record at `h + headerSize` fits, `parse` renders
exactly `N` token blocks, all decoded from that one record and differing only
in their index, and no truncation marker; otherwise (whatever the record) it
renders no token block and, when `N > 0`, one truncation marker for index 0.
`N` is at most 255. -/
theorem zero_tokenSize_of_inside (v : Nat) (filename : String) (rom : List Byte) (o h : Nat)
    (hmax : rom.length < 2 ^ 64) (ho : findPCIExpansionROM rom = .ok o)
    (hh : findBITHeader rom o = .ok h) (hrec : h + sizeofBITHeader ≤ rom.length)
    (hts : byteAt rom (h + 9) = 0) :
    (h + byteAt rom (h + 8) + sizeofBITToken ≤ rom.length →
      payloadInside v rom (tokenAt rom (h + byteAt rom (h + 8))) →
        parse v filename rom =
          { report := reportHeader filename rom o h ++
              ((List.range (byteAt rom (h + 10))).flatMap fun i =>
                (tokenBlock v rom i (tokenAt rom (h + byteAt rom (h + 8)))).1)
            result := .ok true } ∧
        (parse v filename rom).report.countP Out.isTokenTitle = byteAt rom (h + 10) ∧
        (parse v filename rom).report.countP Out.isTokenBeyond = 0) ∧
    (rom.length < h + byteAt rom (h + 8) + sizeofBITToken →
        parse v filename rom =
          { report := reportHeader filename rom o h ++
              (if 0 < byteAt rom (h + 10) then [Out.tokenBeyond 0] else [])
            result := .ok true } ∧
        (parse v filename rom).report.countP Out.isTokenTitle = 0) ∧
    (∀ i j token, (tokenBlock v rom i token).1.tail = (tokenBlock v rom j token).1.tail) ∧
    byteAt rom (h + 10) ≤ 255 := by
  have hM : fittingTokens rom h =
      if h + byteAt rom (h + 8) + 6 ≤ rom.length then byteAt rom (h + 10) else 0 := by
    unfold fittingTokens
    rw [hts, fitCount_zero_stride]
  refine ⟨?_, ?_, fun i j token => (tokenBlock_tail v rom i j token).1, ?_⟩
  · intro hfit hin
    unfold sizeofBITToken at hfit
    have hd : decodersInside v rom h := by
      intro i _
      unfold tokenOffsetOf
      rw [hts, Nat.mul_zero, Nat.add_zero]
      exact hin
    obtain ⟨_, hrep, htitle, hbeyond, _⟩ :=
      token_enumeration_of_inside v filename rom o h hmax ho hh hrec hd
    have hpar := parse_of_header_inside v filename rom o h ho hh hrec hmax hd
    rw [hM, if_pos hfit] at hpar htitle hbeyond
    rw [hts, blocksFrom_zero_stride] at hpar
    simp only [Nat.lt_irrefl, if_false, List.append_nil, Nat.zero_add] at hpar hbeyond
    exact ⟨hpar, htitle, hbeyond⟩
  · intro hfit
    unfold sizeofBITToken at hfit
    have hz : fittingTokens rom h = 0 := by rw [hM, if_neg (by omega)]
    have hd : decodersInside v rom h := by
      intro i hi
      rw [hz] at hi
      exact absurd hi (Nat.not_lt_zero i)
    obtain ⟨_, hrep, htitle, _⟩ :=
      token_enumeration_of_inside v filename rom o h hmax ho hh hrec hd
    have hpar := parse_of_header_inside v filename rom o h ho hh hrec hmax hd
    rw [hz] at hpar htitle
    simp only [blocksFrom, List.range_zero, List.flatMap_nil, List.nil_append] at hpar
    exact ⟨hpar, htitle⟩
  · have := byteAt_lt rom (h + 10)
    omega

/-- C20 (code defect): `wildStrideRom` has a found header at 0 with
`tokenSize = 0`, `tokenEntries = 3` and a record at `h + headerSize = 12` that
fits (12 + 6 ≤ 18), so the claim asks for three equal token blocks and no
truncation marker.  The record is a BIOSDATA version 1 token with
`dataPointer = 0xFFF0`: `parseBIOSData` reads index 65520 of the 18-byte buffer
in block 0, the run stops there with one token title rendered and no result.
On `zeroStrideRom`, whose record is a NOP token, the three blocks are
rendered and the result is true. -/
theorem C20_zero_tokenSize_cut_by_decoder :
    wildStrideRom.length = 18 ∧
    findPCIExpansionROM wildStrideRom = .ok 0 ∧ findBITHeader wildStrideRom 0 = .ok 0 ∧
    byteAt wildStrideRom 9 = 0 ∧ byteAt wildStrideRom 10 = 3 ∧
    0 + byteAt wildStrideRom 8 + sizeofBITToken ≤ wildStrideRom.length ∧
    tokenAt wildStrideRom (0 + byteAt wildStrideRom 8) = ⟨0x42, 1, 18, 0xFFF0⟩ ∧
    parse 17 "demo.rom" wildStrideRom =
      { report := reportHeader "demo.rom" wildStrideRom 0 0 ++
          [Out.tokenTitle 0 "BIT_TOKEN_BIOSDATA" 0x42, Out.dataVersion 1, Out.dataSize 18,
           Out.dataPointer 0xFFF0, Out.biosDataLabel 1]
        result := .error 65520 } ∧
    parse 18 "demo.rom" wildStrideRom = parse 17 "demo.rom" wildStrideRom ∧
    (parse 17 "demo.rom" wildStrideRom).report.countP Out.isTokenTitle = 1 ∧
    parse 17 "demo.rom" zeroStrideRom =
      { report := reportHeader "demo.rom" zeroStrideRom 0 0 ++
          [Out.tokenTitle 0 "BIT_TOKEN_NOP" 0x4E, Out.dataVersion 0, Out.dataSize 1,
           Out.dataPointer 1, Out.nop, Out.newline,
           Out.tokenTitle 1 "BIT_TOKEN_NOP" 0x4E, Out.dataVersion 0, Out.dataSize 1,
           Out.dataPointer 1, Out.nop, Out.newline,
           Out.tokenTitle 2 "BIT_TOKEN_NOP" 0x4E, Out.dataVersion 0, Out.dataSize 1,
           Out.dataPointer 1, Out.nop, Out.newline]
        result := .ok true } := by
  refine ⟨by decide, by decide, by decide, by decide, by decide, by decide, by decide,
    by decide, by decide, by decide, by decide⟩
/-! ## Payload decoders -/

/-- C11 (code defect): in the 24-byte `strayRom`, `parse` reaches
`parseBIOSData` with `dataPointer = 256`, which reads index 256 and stops the
run; `parseStringPtrs` with a 21-byte layout at offset 10 reads index 24; in
`strayStringsRom`, where the STRING_PTRS token comes first, `parse` reaches
that read.  Both indices are past the end of the buffer. -/
theorem C11_payload_decoders_read_past_end :
    strayRom.length = 24 ∧ strayStringsRom.length = 24 ∧
    parseBIOSData 17 strayRom 256 1 18 = ([Out.biosDataLabel 1], some 256) ∧
    parseBIOSData 18 strayRom 256 1 18 = ([Out.biosDataLabel 1], some 256) ∧
    parseStringPtrs strayRom 10 2 21 =
      ([Out.stringPtrsLabel 2,
        Out.stringLine "Sign On Message" nullString,
        Out.stringLine "Version String" nullString,
        Out.stringLine "Copyright String" nullString,
        Out.stringLine "OEM String" nullString], some 24) ∧
    parse 17 "demo.rom" strayRom =
      { report := reportHeader "demo.rom" strayRom 0 0 ++
          [Out.tokenTitle 0 "BIT_TOKEN_BIOSDATA" 0x42, Out.dataVersion 1, Out.dataSize 18,
           Out.dataPointer 256, Out.biosDataLabel 1]
        result := .error 256 } ∧
    tokenAt strayStringsRom 12 = ⟨0x53, 2, 21, 10⟩ ∧
    (parse 17 "demo.rom" strayStringsRom).result = .error 24 ∧
    (parse 17 "demo.rom" strayStringsRom).report.take 14 =
      reportHeader "demo.rom" strayStringsRom 0 0 ++
        [Out.tokenTitle 0 "BIT_TOKEN_STRING_PTRS" 0x53, Out.dataVersion 2, Out.dataSize 21,
         Out.dataPointer 10, Out.stringPtrsLabel 2] := by
  refine ⟨by decide, by decide, by decide, by decide, by decide, by decide, by decide,
    by decide, by decide⟩

set_option maxRecDepth 100000 in
/-- C13: the token-name lookup is total; an 8-bit id gets a name other than
"UNKNOWN_TOKEN" exactly when it is one of the 20 listed ids, every other id
gets "UNKNOWN_TOKEN", and the 20 names are pairwise distinct. -/
theorem C13_tokenName_known_ids :
    knownIds.length = 20 ∧ knownIds.Nodup ∧ (knownIds.map tokenName).Nodup ∧
    (∀ id : Fin 256, tokenName id.val ≠ "UNKNOWN_TOKEN" ↔ id.val ∈ knownIds) ∧
    (∀ id : Fin 256, id.val ∈ knownIds ∨ tokenName id.val = "UNKNOWN_TOKEN") ∧
    tokenNames.map Prod.fst = knownIds := by
  refine ⟨by decide, by decide, by decide, by decide, by decide, by decide⟩

/-- C15: a BIOSDATA (0x42) or STRING_PTRS (0x53) token with non-zero
`dataPointer` and `dataSize` whose version is neither 1 nor 2, or whose
`dataSize` is below the layout size of its version, gets the "Version N" label
as its whole payload block, whatever the buffer holds. -/
theorem C15_silent_partial_decode (v : Nat) (rom : List Byte) (token : BITToken)
    (hp : token.dataPointer ≠ 0) (hs : token.dataSize ≠ 0)
    (hodd : (token.dataVersion ≠ 1 ∧ token.dataVersion ≠ 2) ∨
      (token.id = 0x42 ∧ token.dataVersion = 1 ∧ token.dataSize < v) ∨
      (token.id = 0x42 ∧ token.dataVersion = 2 ∧ token.dataSize < sizeofBIOSData_v2) ∨
      (token.id = 0x53 ∧ token.dataVersion = 1 ∧ token.dataSize < sizeofStringPtrs_v1) ∨
      (token.id = 0x53 ∧ token.dataVersion = 2 ∧ token.dataSize < sizeofStringPtrs_v2)) :
    (token.id = 0x42 → tokenPayload v rom token = ([Out.biosDataLabel token.dataVersion], none)) ∧
    (token.id = 0x53 → tokenPayload v rom token = ([Out.stringPtrsLabel token.dataVersion], none)) := by
  have hgo : token.dataPointer ≠ 0 ∧ token.dataSize > 0 := ⟨hp, Nat.pos_of_ne_zero hs⟩
  constructor
  · intro hid
    unfold tokenPayload parseBIOSData
    rw [if_pos hgo, if_pos hid]
    have h1 : ¬ (token.dataVersion = 1 ∧ token.dataSize ≥ v) := by
      rintro ⟨hv, hsz⟩
      rcases hodd with h | h | h | h | h <;> omega
    have h2 : ¬ (token.dataVersion = 2 ∧ token.dataSize ≥ sizeofBIOSData_v2) := by
      rintro ⟨hv, hsz⟩
      rcases hodd with h | h | h | h | h <;> omega
    rw [if_neg h1, if_neg h2]
  · intro hid
    unfold tokenPayload parseStringPtrs
    rw [if_pos hgo, if_neg (by omega), if_pos hid]
    have h1 : ¬ (token.dataVersion = 1 ∧ token.dataSize ≥ sizeofStringPtrs_v1) := by
      rintro ⟨hv, hsz⟩
      rcases hodd with h | h | h | h | h <;> omega
    have h2 : ¬ (token.dataVersion = 2 ∧ token.dataSize ≥ sizeofStringPtrs_v2) := by
      rintro ⟨hv, hsz⟩
      rcases hodd with h | h | h | h | h <;> omega
    rw [if_neg h1, if_neg h2]

/-- C15 witness: a BIOSDATA token of version 9, and a STRING_PTRS token of
version 1 whose size 14 is one byte short of the layout. -/
theorem C15_silent_partial_decode_witness :
    tokenPayload 17 abcRom ⟨0x42, 9, 4, 1⟩ = ([Out.biosDataLabel 9], none) ∧
    tokenPayload 17 abcRom ⟨0x53, 1, 14, 1⟩ = ([Out.stringPtrsLabel 1], none) :=
  ⟨(C15_silent_partial_decode 17 abcRom ⟨0x42, 9, 4, 1⟩ (by decide) (by decide)
      (Or.inl (by decide))).1 rfl,
   (C15_silent_partial_decode 17 abcRom ⟨0x53, 1, 14, 1⟩ (by decide) (by decide)
      (Or.inr (Or.inr (Or.inr (Or.inl (by decide)))))).2 rfl⟩

theorem byteAt_set_eq_of_ne (rom : List Byte) (k i : Nat) (x : Byte) (h : i ≠ k) :
    byteAt (rom.set k x) i = byteAt rom i :=
  byteAt_set_ne rom k i x (Ne.symm h)

/-- C14: a BIOSDATA version 1 payload at `p` of `dataSize` at least the layout
size (itself at least the 17 bytes the fields occupy) lying inside the buffer
decodes to biosVersion = 32-bit LE at `p`, biosOEMVersion = byte `p + 4`,
biosChecksum = byte `p + 5`, the 16-bit LE values at `p + 6`, `p + 8`, `p + 10`,
`p + 12`, and a BIOSMOD date equal to the low 24 bits of the 32-bit LE word at
`p + 14`, that is bytes `p + 14 .. p + 16`; changing the byte at `p + 17` does
not change the decode. -/
theorem C14_biosData_v1_decode (v : Nat) (rom : List Byte) (p size : Nat)
    (hv : 17 ≤ v) (hsize : v ≤ size) (hin : p + size ≤ rom.length) :
    parseBIOSData v rom p 1 size =
      ([Out.biosDataLabel 1,
        Out.biosDataV1
         { biosVersion := le32At rom p
           biosOEMVersion := byteAt rom (p + 4)
           biosChecksum := byteAt rom (p + 5)
           int15PostCallbacks := le16At rom (p + 6)
           int15SystemCallbacks := le16At rom (p + 8)
           biosBoardId := le16At rom (p + 10)
           frameCount := le16At rom (p + 12)
           biosmodDate := le32At rom (p + 14) % 2 ^ 24 }], none) ∧
    le32At rom (p + 14) % 2 ^ 24 =
      byteAt rom (p + 14) + 256 * byteAt rom (p + 15) + 65536 * byteAt rom (p + 16) ∧
    (∀ x : Byte, parseBIOSData v (rom.set (p + 17) x) p 1 size = parseBIOSData v rom p 1 size) ∧
    (p ≠ 0 → tokenPayload v rom ⟨0x42, 1, size, p⟩ = parseBIOSData v rom p 1 size) := by
  have h24 : le32At rom (p + 14) % 2 ^ 24 =
      byteAt rom (p + 14) + 256 * byteAt rom (p + 15) + 65536 * byteAt rom (p + 16) := by
    have h0 := byteAt_lt rom (p + 14)
    have h1 := byteAt_lt rom (p + 15)
    have h2 := byteAt_lt rom (p + 16)
    unfold le32At
    have e1 : p + 14 + 1 = p + 15 := rfl
    have e2 : p + 14 + 2 = p + 16 := rfl
    rw [e1, e2]
    omega
  have hdec : ∀ r : List Byte, p + 17 ≤ r.length →
      parseBIOSData v r p 1 size =
        ([Out.biosDataLabel 1,
          Out.biosDataV1
           { biosVersion := le32At r p
             biosOEMVersion := byteAt r (p + 4)
             biosChecksum := byteAt r (p + 5)
             int15PostCallbacks := le16At r (p + 6)
             int15SystemCallbacks := le16At r (p + 8)
             biosBoardId := le16At r (p + 10)
             frameCount := le16At r (p + 12)
             biosmodDate := byteAt r (p + 14) + 256 * byteAt r (p + 15) +
               65536 * byteAt r (p + 16) }], none) := by
    intro r hr
    unfold parseBIOSData
    rw [if_pos ⟨rfl, hsize⟩, readBIOSData_v1_of_inside hr]
  refine ⟨?_, h24, ?_, ?_⟩
  · rw [hdec rom (by omega), h24]
  · intro x
    rw [hdec rom (by omega), hdec _ (by rw [List.length_set]; omega)]
    simp only [le32At, le16At]
    repeat rw [byteAt_set_eq_of_ne _ _ _ _ (by omega)]
  · intro hp
    unfold tokenPayload
    have hpos : 0 < size := Nat.lt_of_lt_of_le (by decide) (le_trans hv hsize)
    rw [if_pos ⟨hp, hpos⟩, if_pos rfl]

/-- C14 witness: in `biosRom` the payloads at 0 and at 20 differ only in their
byte 17 and decode to the same fields, with BIOSMOD date `0x11100F`. -/
theorem C14_biosData_v1_decode_witness :
    parseBIOSData 17 biosRom 20 1 20 =
      ([Out.biosDataLabel 1,
        Out.biosDataV1
         { biosVersion := 0x04030201, biosOEMVersion := 5, biosChecksum := 6,
           int15PostCallbacks := 0x0807, int15SystemCallbacks := 0x0A09,
           biosBoardId := 0x0C0B, frameCount := 0x0E0D, biosmodDate := 0x11100F }], none) ∧
    parseBIOSData 17 biosRom 0 1 20 = parseBIOSData 17 biosRom 20 1 20 :=
  ⟨(C14_biosData_v1_decode 17 biosRom 20 20 (by decide) (by decide) (by decide)).1.trans
      (by decide),
   by decide⟩
/-- C18: a STRING_PTRS payload at `p` lying inside the buffer renders, for
version 1 and `dataSize ≥ 15`, exactly 5 strings, and for version 2 and
`dataSize ≥ 21`, exactly 7 strings, in layout order; the `k`-th string is
`readString` of the 16-bit LE pointer at `p + 3k` and the length byte at
`p + 3k + 2`. -/
theorem C18_stringPtrs_decode (rom : List Byte) (p size : Nat) (hin : p + size ≤ rom.length) :
    (15 ≤ size →
      parseStringPtrs rom p 1 size =
        (Out.stringPtrsLabel 1 ::
          stringLabels_v1.enum.map fun kl =>
            Out.stringLine kl.2 (readString rom (le16At rom (p + 3 * kl.1))
              (byteAt rom (p + 3 * kl.1 + 2))), none)) ∧
    (21 ≤ size →
      parseStringPtrs rom p 2 size =
        (Out.stringPtrsLabel 2 ::
          stringLabels_v2.enum.map fun kl =>
            Out.stringLine kl.2 (readString rom (le16At rom (p + 3 * kl.1))
              (byteAt rom (p + 3 * kl.1 + 2))), none)) ∧
    stringLabels_v1.length = 5 ∧ stringLabels_v2.length = 7 ∧
    (p ≠ 0 → 0 < size → ∀ v version,
      tokenPayload v rom ⟨0x53, version, size, p⟩ = parseStringPtrs rom p version size) := by
  refine ⟨?_, ?_, rfl, rfl, ?_⟩
  · intro hs
    unfold parseStringPtrs
    rw [if_pos ⟨rfl, hs⟩, stringLines_of_inside rom p _
      (by simp only [stringLabels_v1, List.length_cons, List.length_nil]; omega)]
    rfl
  · intro hs
    unfold parseStringPtrs
    rw [if_neg (fun h => absurd h.1 (by decide)), if_pos ⟨rfl, hs⟩,
      stringLines_of_inside rom p _
      (by simp only [stringLabels_v2, List.length_cons, List.length_nil]; omega)]
    rfl
  · intro hp hsz v version
    unfold tokenPayload
    rw [if_pos ⟨hp, hsz⟩, if_neg (show ¬ (0x53 : Nat) = 0x42 by decide), if_pos rfl]

/-- C18 witness: the `StringPtrs_v1` layout of `stringsRom` at offset 1 renders
"ABC", "NULL" (null pointer), "DE", "NULL" (pointer past the end) and "FGHI"
(cut at the length byte 4). -/
theorem C18_stringPtrs_decode_witness :
    parseStringPtrs stringsRom 1 1 15 =
      ([Out.stringPtrsLabel 1,
        Out.stringLine "Sign On Message" [0x41, 0x42, 0x43],
        Out.stringLine "OEM String" nullString,
        Out.stringLine "OEM Vendor Name" [0x44, 0x45],
        Out.stringLine "OEM Product Name" nullString,
        Out.stringLine "OEM Product Revision" [0x46, 0x47, 0x48, 0x49]], none) :=
  ((C18_stringPtrs_decode stringsRom 1 15 (by decide)).1 (by decide)).trans (by decide)
/-! ## Token record geometry -/

theorem filterMap_tokenIndex_filter (l : List Out) :
    (l.filter Out.isTokenLine).filterMap Out.tokenIndex = l.filterMap Out.tokenIndex := by
  induction l with
  | nil => rfl
  | cons e t ih =>
    cases e <;> simp [List.filter, List.filterMap, Out.isTokenLine, Out.tokenIndex, ih]

theorem linesFrom_tokenIndex (rom : List Byte) (tokenSize : Nat) :
    ∀ (j first i : Nat),
      (linesFrom rom first tokenSize i j).filterMap Out.tokenIndex = List.range' i j := by
  intro j
  induction j with
  | zero => intro first i; simp [linesFrom]
  | succ j ih =>
    intro first i
    rw [linesFrom_succ, List.filterMap_append, ih, List.range'_succ]
    rfl

theorem linesFrom_spelled (rom : List Byte) (h j : Nat) :
    linesFrom rom (h + byteAt rom (h + 8)) (byteAt rom (h + 9)) 0 j =
      (List.range j).flatMap fun i =>
        [Out.tokenTitle i (tokenName (byteAt rom (tokenOffsetOf rom h i)))
            (byteAt rom (tokenOffsetOf rom h i)),
         Out.dataVersion (byteAt rom (tokenOffsetOf rom h i + 1)),
         Out.dataSize (byteAt rom (tokenOffsetOf rom h i + 2) +
           256 * byteAt rom (tokenOffsetOf rom h i + 3)),
         Out.dataPointer (byteAt rom (tokenOffsetOf rom h i + 4) +
           256 * byteAt rom (tokenOffsetOf rom h i + 5))] := by
  unfold linesFrom
  simp only [Nat.zero_add]
  rfl

/-- C16: with a found header at `h`, for every buffer, the record lines (title,
data version, data size, data pointer) in the report are those of the token
blocks `0, 1, .., j - 1` in ascending index order with no reordering, the block
of index `i` decoded from the 6 bytes at `t = h + headerSize + i * tokenSize`:
id = byte `t`, dataVersion = byte `t + 1`, dataSize = bytes `t + 2`, `t + 3`
little-endian, dataPointer = bytes `t + 4`, `t + 5` little-endian, `headerSize`
and `tokenSize` being the bytes at `h + 8` and `h + 9`.  Here `j` is at most
the number `M` of records that fit, and `j = M` whenever `parse` returns; when
no payload decoder reads past the buffer, `parse` returns and the report is the
header part, the `M` blocks (record lines, payload block, blank line) and the
truncation marker if a record does not fit.  Every such record lies inside the
buffer. -/
theorem C16_token_record_geometry (v : Nat) (filename : String) (rom : List Byte) (o h : Nat)
    (hmax : rom.length < 2 ^ 64) (ho : findPCIExpansionROM rom = .ok o)
    (hh : findBITHeader rom o = .ok h) (hrec : h + sizeofBITHeader ≤ rom.length) :
    (∃ j, j ≤ fittingTokens rom h ∧
      (parse v filename rom).report.filter Out.isTokenLine =
        ((List.range j).flatMap fun i =>
          [Out.tokenTitle i (tokenName (byteAt rom (tokenOffsetOf rom h i)))
              (byteAt rom (tokenOffsetOf rom h i)),
           Out.dataVersion (byteAt rom (tokenOffsetOf rom h i + 1)),
           Out.dataSize (byteAt rom (tokenOffsetOf rom h i + 2) +
             256 * byteAt rom (tokenOffsetOf rom h i + 3)),
           Out.dataPointer (byteAt rom (tokenOffsetOf rom h i + 4) +
             256 * byteAt rom (tokenOffsetOf rom h i + 5))]) ∧
      (parse v filename rom).report.filterMap Out.tokenIndex = List.range j ∧
      ((parse v filename rom).result = .ok true → j = fittingTokens rom h)) ∧
    (decodersInside v rom h →
      (parse v filename rom).result = .ok true ∧
      (parse v filename rom).report = reportHeader filename rom o h ++
        ((List.range (fittingTokens rom h)).flatMap fun i =>
          [Out.tokenTitle i (tokenName (byteAt rom (tokenOffsetOf rom h i)))
              (byteAt rom (tokenOffsetOf rom h i)),
           Out.dataVersion (byteAt rom (tokenOffsetOf rom h i + 1)),
           Out.dataSize (byteAt rom (tokenOffsetOf rom h i + 2) +
             256 * byteAt rom (tokenOffsetOf rom h i + 3)),
           Out.dataPointer (byteAt rom (tokenOffsetOf rom h i + 4) +
             256 * byteAt rom (tokenOffsetOf rom h i + 5))] ++
          (tokenPayload v rom (tokenAt rom (tokenOffsetOf rom h i))).1 ++ [Out.newline]) ++
        (if fittingTokens rom h < byteAt rom (h + 10)
         then [Out.tokenBeyond (fittingTokens rom h)] else [])) ∧
    (∀ i, i < fittingTokens rom h → tokenOffsetOf rom h i + 6 ≤ rom.length) ∧
    (∀ i, tokenOffsetOf rom h i = h + byteAt rom (h + 8) + i * byteAt rom (h + 9)) := by
  have hpar := parse_of_header v filename rom o h ho hh hrec hmax
  refine ⟨?_, ?_, fun i hi => fitCount_fits rom _ _ _ i hi, fun _ => rfl⟩
  · obtain ⟨j, hj, hlines, hend⟩ :=
      parseTokens_lines v rom (byteAt rom (h + 9)) (byteAt rom (h + 10)) 0
        (h + byteAt rom (h + 8))
    have hfil : (parse v filename rom).report.filter Out.isTokenLine =
        linesFrom rom (h + byteAt rom (h + 8)) (byteAt rom (h + 9)) 0 j := by
      rw [hpar]
      simp only [List.filter_append, hlines]
      have h1 : (reportHeader filename rom o h).filter Out.isTokenLine = [] := rfl
      rw [h1, List.nil_append]
    refine ⟨j, hj, ?_, ?_, ?_⟩
    · rw [hfil, linesFrom_spelled]
    · rw [← filterMap_tokenIndex_filter, hfil, linesFrom_tokenIndex, List.range_eq_range']
    · intro hres
      apply hend
      rw [hpar] at hres
      simp only at hres
      cases hf : (parseTokens v rom (byteAt rom (h + 9)) (byteAt rom (h + 10)) 0
          (h + byteAt rom (h + 8))).2 with
      | none => rfl
      | some f => rw [hf] at hres; exact Except.noConfusion hres
  · intro hd
    have hin := parse_of_header_inside v filename rom o h ho hh hrec hmax hd
    have hb : blocksFrom v rom (h + byteAt rom (h + 8)) (byteAt rom (h + 9)) 0
        (fittingTokens rom h) =
        (List.range (fittingTokens rom h)).flatMap fun i =>
          [Out.tokenTitle i (tokenName (byteAt rom (tokenOffsetOf rom h i)))
              (byteAt rom (tokenOffsetOf rom h i)),
           Out.dataVersion (byteAt rom (tokenOffsetOf rom h i + 1)),
           Out.dataSize (byteAt rom (tokenOffsetOf rom h i + 2) +
             256 * byteAt rom (tokenOffsetOf rom h i + 3)),
           Out.dataPointer (byteAt rom (tokenOffsetOf rom h i + 4) +
             256 * byteAt rom (tokenOffsetOf rom h i + 5))] ++
          (tokenPayload v rom (tokenAt rom (tokenOffsetOf rom h i))).1 ++ [Out.newline] := by
      unfold blocksFrom
      apply List.flatMap_congr
      intro i hi
      rw [List.mem_range] at hi
      rw [Nat.zero_add, tokenBlock_of_none i (no_fault_of_decodersInside hd i hi)]
      rfl
    have hrep : (parse v filename rom).report = reportHeader filename rom o h ++
        (blocksFrom v rom (h + byteAt rom (h + 8)) (byteAt rom (h + 9)) 0
          (fittingTokens rom h) ++
         if fittingTokens rom h < byteAt rom (h + 10)
         then [Out.tokenBeyond (fittingTokens rom h)] else []) := by rw [hin]
    refine ⟨by rw [hin], ?_⟩
    rw [hrep, hb, List.append_assoc]

/-- C16 witness: in `lenientRom` (`headerSize = 27`, `tokenSize = 6`) the three
records at 27, 33 and 39 are rendered with indices 0, 1, 2; in `strayRom`,
where the decoder of block 0 reads past the buffer, the record lines rendered
are those of record 0. -/
theorem C16_token_record_geometry_witness :
    (parse 17 "demo.rom" lenientRom).result = .ok true ∧
    (∃ j, j ≤ 3 ∧
      (parse 17 "demo.rom" lenientRom).report.filterMap Out.tokenIndex = List.range j) ∧
    (parse 17 "demo.rom" lenientRom).report.filterMap Out.tokenIndex = [0, 1, 2] ∧
    tokenOffsetOf lenientRom 0 2 = 39 ∧
    tokenAt lenientRom 39 = ⟨0x53, 1, 15, 12⟩ ∧
    (parse 17 "demo.rom" strayRom).report.filter Out.isTokenLine =
      [Out.tokenTitle 0 "BIT_TOKEN_BIOSDATA" 0x42, Out.dataVersion 1, Out.dataSize 18,
       Out.dataPointer 256] := by
  have hw := C16_token_record_geometry 17 "demo.rom" lenientRom 0 0
    (by decide) (by decide) (by decide) (by decide)
  obtain ⟨⟨j, hj, _, hidx, _⟩, hin, _⟩ := hw
  exact ⟨(hin (by decide)).1, ⟨j, hj.trans (by decide), hidx⟩, by decide, by decide, by decide,
    by decide⟩

/-! ## The end-to-end scenario -/

theorem byteAt_tabulate (f : Nat → Byte) (n i : Nat) :
    byteAt ((List.range n).map f) i = if i < n then (f i).val else 0 := by
  unfold byteAt
  rw [List.getD_eq_getElem?_getD, List.getElem?_map]
  by_cases h : i < n
  · rw [List.getElem?_range h, if_pos h]
    rfl
  · rw [List.getElem?_eq_none (by simpa using h), if_neg h]
    rfl

theorem byteAt_scenario (a b c : Byte) (i : Nat) :
    byteAt (scenarioImage a b c) i = if i < 2048 then (scenarioByte a b c i).val else 0 :=
  byteAt_tabulate _ _ _

theorem length_scenario (a b c : Byte) : (scenarioImage a b c).length = 2048 := by
  simp [scenarioImage]

theorem byteSum_drop_take (rom : List Byte) :
    ∀ (n i : Nat), i + n ≤ rom.length →
      byteSum ((rom.drop i).take n) = ((List.range n).map fun k => byteAt rom (i + k)).sum := by
  intro n
  induction n with
  | zero => intro i _; simp [byteSum]
  | succ n ih =>
    intro i h
    obtain ⟨b, hb, hdrop⟩ := drop_eq_byte_cons (show i < rom.length by omega)
    rw [hdrop, List.take_succ_cons, List.range_succ_eq_map, List.map_cons, List.sum_cons,
      List.map_map]
    simp only [byteSum, List.map_cons, List.sum_cons] at ih ⊢
    rw [ih (i + 1) (by omega), hb, Nat.add_zero]
    congr 2
    apply List.map_congr_left
    intro k _
    simp only [Function.comp, Nat.succ_eq_add_one]
    congr 1
    omega

theorem byteAt_scenarioNull (i : Nat) :
    byteAt scenarioNullImage i = if i < 2048 then (scenarioNullByte i).val else 0 :=
  byteAt_tabulate _ _ _

theorem length_scenarioNull : scenarioNullImage.length = 2048 := by
  simp [scenarioNullImage]

theorem parse_two_tokens (v : Nat) (filename : String) (rom : List Byte) (o h : Nat)
    (hmax : rom.length < 2 ^ 64) (ho : findPCIExpansionROM rom = .ok o)
    (hh : findBITHeader rom o = .ok h) (hrec : h + sizeofBITHeader ≤ rom.length)
    (hN : byteAt rom (h + 10) = 2) (hfit : tokenOffsetOf rom h 1 + 6 ≤ rom.length)
    (h0 : (tokenPayload v rom (tokenAt rom (tokenOffsetOf rom h 0))).2 = none)
    (h1 : (tokenPayload v rom (tokenAt rom (tokenOffsetOf rom h 1))).2 = none) :
    parse v filename rom =
      { report := reportHeader filename rom o h ++
          (tokenLines 0 (tokenAt rom (tokenOffsetOf rom h 0)) ++
            (tokenPayload v rom (tokenAt rom (tokenOffsetOf rom h 0))).1 ++ [Out.newline] ++
           (tokenLines 1 (tokenAt rom (tokenOffsetOf rom h 1)) ++
            (tokenPayload v rom (tokenAt rom (tokenOffsetOf rom h 1))).1 ++ [Out.newline]))
        result := .ok true } := by
  unfold tokenOffsetOf at hfit h0 h1
  have hM : fitCount rom (h + byteAt rom (h + 8)) (byteAt rom (h + 9)) (byteAt rom (h + 10)) =
      2 := by
    rw [hN, fitCount_succ, if_pos (by omega), fitCount_succ, if_pos (by omega)]
    simp [fitCount]
  have hno : ∀ k, k < fitCount rom (h + byteAt rom (h + 8)) (byteAt rom (h + 9))
      (byteAt rom (h + 10)) →
      (tokenPayload v rom
        (tokenAt rom (h + byteAt rom (h + 8) + k * byteAt rom (h + 9)))).2 = none := by
    intro k hk
    rw [hM] at hk
    have hk2 : k = 0 ∨ k = 1 := by omega
    rcases hk2 with rfl | rfl
    · exact h0
    · exact h1
  rw [parse_of_header v filename rom o h ho hh hrec hmax, parseTokens_eq v rom _ _ 0 _ hno, hM,
    hN, if_neg (Nat.lt_irrefl 2), blocksFrom_succ, blocksFrom_succ]
  simp only [Nat.zero_mul, Nat.add_zero] at h0
  simp only [Nat.one_mul] at h1
  rw [tokenBlock_of_none 0 h0, tokenBlock_of_none (0 + 1) h1]
  simp only [blocksFrom, List.range_zero, List.flatMap_nil, List.append_nil, tokenOffsetOf,
    Nat.zero_mul, Nat.one_mul, Nat.add_zero, Nat.zero_add]

theorem parseBIOSData_v1_inside (v : Nat) (rom : List Byte) (p size : Nat)
    (hsize : v ≤ size) (hin : p + 17 ≤ rom.length) :
    parseBIOSData v rom p 1 size =
      ([Out.biosDataLabel 1,
        Out.biosDataV1
         { biosVersion := le32At rom p
           biosOEMVersion := byteAt rom (p + 4)
           biosChecksum := byteAt rom (p + 5)
           int15PostCallbacks := le16At rom (p + 6)
           int15SystemCallbacks := le16At rom (p + 8)
           biosBoardId := le16At rom (p + 10)
           frameCount := le16At rom (p + 12)
           biosmodDate := byteAt rom (p + 14) + 256 * byteAt rom (p + 15) +
             65536 * byteAt rom (p + 16) }], none) := by
  unfold parseBIOSData
  rw [if_pos ⟨rfl, hsize⟩, readBIOSData_v1_of_inside hin]

theorem tokenPayload_biosData_v1 (v : Nat) (rom : List Byte) (p size : Nat)
    (hv : 17 ≤ v) (hsize : v ≤ size) (hp : p ≠ 0) (hin : p + 17 ≤ rom.length) :
    tokenPayload v rom ⟨0x42, 1, size, p⟩ =
      ([Out.biosDataLabel 1,
        Out.biosDataV1
         { biosVersion := le32At rom p
           biosOEMVersion := byteAt rom (p + 4)
           biosChecksum := byteAt rom (p + 5)
           int15PostCallbacks := le16At rom (p + 6)
           int15SystemCallbacks := le16At rom (p + 8)
           biosBoardId := le16At rom (p + 10)
           frameCount := le16At rom (p + 12)
           biosmodDate := byteAt rom (p + 14) + 256 * byteAt rom (p + 15) +
             65536 * byteAt rom (p + 16) }], none) := by
  have hpos : 0 < size := Nat.lt_of_lt_of_le (by decide) (le_trans hv hsize)
  unfold tokenPayload
  rw [if_pos ⟨hp, hpos⟩, if_pos rfl]
  exact parseBIOSData_v1_inside v rom p size hsize hin

theorem tokenPayload_nop (v : Nat) (rom : List Byte) (version size p : Nat)
    (hp : p ≠ 0) (hs : size ≠ 0) :
    tokenPayload v rom ⟨0x4E, version, size, p⟩ = ([Out.nop], none) := by
  unfold tokenPayload
  rw [if_pos ⟨hp, Nat.pos_of_ne_zero hs⟩, if_neg (show ¬ (0x4E : Nat) = 0x42 by decide),
    if_neg (show ¬ (0x4E : Nat) = 0x53 by decide), if_pos rfl]

theorem tokenPayload_no_data (v : Nat) (rom : List Byte) (token : BITToken)
    (h : token.dataPointer = 0 ∨ token.dataSize = 0) :
    tokenPayload v rom token = ([Out.noData], none) := by
  unfold tokenPayload
  rw [if_neg]
  rcases h with h | h <;> simp [h]
/-- C12 (amended): in a 2048-byte buffer holding the signature `55 AA` at 512,
the 16-bit pointer at 512 + 24 equal to 28 and "PCIR" at 512 + 28, no accepted
signature at offset 0, a valid BIT header at 600 that is the first anchor from
512 on and declares 2 tokens, the first a BIOSDATA version 1 token with
non-zero `dataPointer` and an in-bounds payload of sufficient size (`dataSize`
at least the layout size, itself at least 17) and the second a NOP token with
non-zero `dataPointer` and `dataSize`, `parse` succeeds, reports ROM base 512
and the header at 600, and renders exactly 2 token blocks in order: the decoded
BIOS fields, then the NOP marker. -/
theorem C12_end_to_end_scenario (v : Nat) (filename : String) (rom : List Byte)
    (size p nopVersion nopSize nopPointer : Nat)
    (hlen : rom.length = 2048) (hzero : ¬ pciMatch rom 0)
    (hsig : byteAt rom 512 = 0x55 ∧ byteAt rom 513 = 0xAA)
    (hptr : pcirPointer rom 512 = 28)
    (hpcir : byteAt rom 540 = 0x50 ∧ byteAt rom 541 = 0x43 ∧ byteAt rom 542 = 0x49 ∧
      byteAt rom 543 = 0x52)
    (hvalid : validHeaderAt rom 600)
    (hfirst : ∀ j, 512 ≤ j → j < 600 → ¬ hasAnchorSig rom j)
    (hN : byteAt rom 610 = 2)
    (ht0 : tokenAt rom (tokenOffsetOf rom 600 0) = ⟨0x42, 1, size, p⟩)
    (hv : 17 ≤ v) (hsize : v ≤ size) (hp : p ≠ 0) (hin : p + size ≤ rom.length)
    (ht1 : tokenAt rom (tokenOffsetOf rom 600 1) = ⟨0x4E, nopVersion, nopSize, nopPointer⟩)
    (hnp : nopPointer ≠ 0) (hns : nopSize ≠ 0) :
    findPCIExpansionROM rom = .ok 512 ∧ findBITHeader rom 512 = .ok 600 ∧
    parse v filename rom =
      { report :=
          [Out.banner, Out.bannerRule, Out.file filename, Out.size 2048, Out.pciRomOffset 512,
           Out.bitFound 600, Out.bitHeaderTitle,
           Out.bitHeaderFields 0xB8FF [0x42, 0x49, 0x54, 0] (le16At rom 606) (byteAt rom 608)
             (byteAt rom 609) 2 (byteAt rom 611),
           Out.bitTokensTitle,
           Out.tokenTitle 0 "BIT_TOKEN_BIOSDATA" 0x42, Out.dataVersion 1, Out.dataSize size,
           Out.dataPointer p, Out.biosDataLabel 1,
           Out.biosDataV1
            { biosVersion := le32At rom p
              biosOEMVersion := byteAt rom (p + 4)
              biosChecksum := byteAt rom (p + 5)
              int15PostCallbacks := le16At rom (p + 6)
              int15SystemCallbacks := le16At rom (p + 8)
              biosBoardId := le16At rom (p + 10)
              frameCount := le16At rom (p + 12)
              biosmodDate := byteAt rom (p + 14) + 256 * byteAt rom (p + 15) +
                65536 * byteAt rom (p + 16) },
           Out.newline,
           Out.tokenTitle 1 "BIT_TOKEN_NOP" 0x4E, Out.dataVersion nopVersion,
           Out.dataSize nopSize, Out.dataPointer nopPointer, Out.nop, Out.newline]
        result := .ok true } := by
  have hmax : rom.length < 2 ^ 64 := by rw [hlen]; decide
  have hmatch : pciMatch rom (512 * 1) := by
    refine ⟨hsig.1, hsig.2, by rw [hlen]; decide, by rw [hptr, hlen]; decide, ?_⟩
    unfold pcirAt
    rw [hptr]
    exact hpcir
  have ho : findPCIExpansionROM rom = .ok 512 :=
    findPCIExpansionROM_first_match rom 1 hmax (by rw [hlen]; decide) hmatch
      (fun t ht => by
        have : t = 0 := by omega
        subst this
        exact hzero)
  have hh : findBITHeader rom 512 = .ok 600 :=
    findBITHeader_first_valid rom 512 600 hmax (by decide) hvalid
      (fun j h1 h2 => Or.inl (hfirst j h1 h2))
  refine ⟨ho, hh, ?_⟩
  have hfit : tokenOffsetOf rom 600 1 + 6 ≤ rom.length := by
    have h8 := byteAt_lt rom (600 + 8)
    have h9 := byteAt_lt rom (600 + 9)
    unfold tokenOffsetOf
    rw [hlen]
    omega
  have hp0 := tokenPayload_biosData_v1 v rom p size hv hsize hp (by omega)
  have hp1 := tokenPayload_nop v rom nopVersion nopSize nopPointer hnp hns
  have hl0 : tokenLines 0 ⟨0x42, 1, size, p⟩ =
      [Out.tokenTitle 0 "BIT_TOKEN_BIOSDATA" 0x42, Out.dataVersion 1, Out.dataSize size,
       Out.dataPointer p] := rfl
  have hl1 : tokenLines 1 ⟨0x4E, nopVersion, nopSize, nopPointer⟩ =
      [Out.tokenTitle 1 "BIT_TOKEN_NOP" 0x4E, Out.dataVersion nopVersion,
       Out.dataSize nopSize, Out.dataPointer nopPointer] := rfl
  rw [parse_two_tokens v filename rom 512 600 hmax ho hh hvalid.1 hN hfit
    (by rw [ht0, hp0]) (by rw [ht1, hp1]), ht0, ht1, hp0, hp1, hl0, hl1]
  obtain ⟨_, ⟨hid, h2, h3, h4, h5⟩, _, _⟩ := hvalid
  simp only [reportHeader, reportHead, hlen, hN, hid, h2, h3, h4, h5, le16At,
    List.cons_append, List.nil_append, List.append_assoc]

/-- C12 witness: the scenario image with pointer 28 and a NOP token of
`dataSize = 1`, `dataPointer = 1`. -/
theorem C12_end_to_end_scenario_witness :
    findPCIExpansionROM (scenarioImage 28 1 1) = .ok 512 ∧
    findBITHeader (scenarioImage 28 1 1) 512 = .ok 600 ∧
    parse 17 "scenario.rom" (scenarioImage 28 1 1) =
      { report :=
          [Out.banner, Out.bannerRule, Out.file "scenario.rom", Out.size 2048,
           Out.pciRomOffset 512, Out.bitFound 600, Out.bitHeaderTitle,
           Out.bitHeaderFields 0xB8FF [0x42, 0x49, 0x54, 0] 0x100 12 6 2 0x55,
           Out.bitTokensTitle,
           Out.tokenTitle 0 "BIT_TOKEN_BIOSDATA" 0x42, Out.dataVersion 1, Out.dataSize 18,
           Out.dataPointer 700, Out.biosDataLabel 1,
           Out.biosDataV1
            { biosVersion := 0x04030201, biosOEMVersion := 5, biosChecksum := 6,
              int15PostCallbacks := 0x0807, int15SystemCallbacks := 0x0A09,
              biosBoardId := 0x0C0B, frameCount := 0x0E0D, biosmodDate := 0x11100F },
           Out.newline,
           Out.tokenTitle 1 "BIT_TOKEN_NOP" 0x4E, Out.dataVersion 0, Out.dataSize 1,
           Out.dataPointer 1, Out.nop, Out.newline]
        result := .ok true } := by
  have h := C12_end_to_end_scenario 17 "scenario.rom" (scenarioImage 28 1 1) 18 700 0 1 1
    (length_scenario _ _ _)
    (by simp only [pciMatch, byteAt_scenario]; decide)
    (by simp only [byteAt_scenario]; decide)
    (by simp only [pcirPointer, byteAt_scenario]; decide)
    (by simp only [byteAt_scenario]; decide)
    (by
      refine ⟨by rw [length_scenario]; decide, by simp only [hasAnchorSig, byteAt_scenario]; decide,
        by simp only [regionInside, byteAt_scenario, length_scenario]; decide, ?_⟩
      unfold headerChecksum
      rw [byteSum_drop_take _ _ _ (by simp only [byteAt_scenario, length_scenario]; decide)]
      simp only [byteAt_scenario]
      decide)
    (by simp only [hasAnchorSig, byteAt_scenario]; decide)
    (by simp only [byteAt_scenario]; decide)
    (by simp only [tokenAt, tokenOffsetOf, byteAt_scenario]; decide)
    (by decide) (by decide) (by decide) (by rw [length_scenario]; decide)
    (by simp only [tokenAt, tokenOffsetOf, byteAt_scenario]; decide)
    (by decide) (by decide)
  simp only [le32At, le16At, byteAt_scenario] at h
  exact h

theorem scenario_literal_no_match (t : Nat) : ¬ pciMatch (scenarioImage 4 1 1) (512 * t) := by
  by_cases ht : t < 4
  · have hcases : t = 0 ∨ t = 1 ∨ t = 2 ∨ t = 3 := by omega
    rcases hcases with rfl | rfl | rfl | rfl <;>
      (simp only [pciMatch, pcirAt, pcirPointer, byteAt_scenario, length_scenario]; decide)
  · intro h
    have h0 := h.1
    rw [byteAt_scenario, if_neg (by omega)] at h0
    exact absurd h0 (by decide)

set_option maxRecDepth 100000 in
theorem scenario_literal_no_anchor :
    ∀ j, j < 600 → ¬ hasAnchorSig (scenarioImage 4 1 1) j := by
  simp only [hasAnchorSig, byteAt_scenario]
  decide

theorem scenario_header_valid (a b c : Byte) : validHeaderAt (scenarioImage a b c) 600 := by
  have hb : ∀ i, 600 ≤ i → i < 612 → byteAt (scenarioImage a b c) i =
      byteAt (scenarioImage 0 0 0) i := by
    intro i h1 h2
    rw [byteAt_scenario, byteAt_scenario]
    unfold scenarioByte
    simp only [show ¬ (512 ≤ i ∧ i < 514) by omega, show ¬ i = 536 by omega,
      show ¬ (540 ≤ i ∧ i < 544) by omega, h1, h2, and_self, if_true, if_false]
  have h0 : validHeaderAt (scenarioImage 0 0 0) 600 := by
    refine ⟨by rw [length_scenario]; decide, by simp only [hasAnchorSig, byteAt_scenario]; decide,
      by simp only [regionInside, byteAt_scenario, length_scenario]; decide, ?_⟩
    unfold headerChecksum
    rw [byteSum_drop_take _ _ _ (by simp only [byteAt_scenario, length_scenario]; decide)]
    simp only [byteAt_scenario]
    decide
  obtain ⟨_, ha, hin, hsum⟩ := h0
  have h8 : byteAt (scenarioImage a b c) (600 + 8) = 12 := by
    rw [hb _ (by decide) (by decide), byteAt_scenario]; decide
  have h8' : byteAt (scenarioImage 0 0 0) (600 + 8) = 12 := by
    rw [byteAt_scenario]; decide
  refine ⟨by rw [length_scenario]; decide, ?_, ?_, ?_⟩
  · unfold hasAnchorSig at ha ⊢
    rw [hb _ (by decide) (by decide), hb _ (by decide) (by decide), hb _ (by decide) (by decide),
      hb _ (by decide) (by decide), hb _ (by decide) (by decide), hb _ (by decide) (by decide)]
    exact ha
  · unfold regionInside
    rw [h8, length_scenario]; decide
  · unfold headerChecksum at hsum ⊢
    rw [h8'] at hsum
    rw [h8, byteSum_drop_take _ _ _ (by rw [length_scenario]; decide)]
    rw [byteSum_drop_take _ _ _ (by rw [length_scenario]; decide)] at hsum
    have hmap : ((List.range 12).map fun k => byteAt (scenarioImage a b c) (600 + k)) =
        (List.range 12).map fun k => byteAt (scenarioImage 0 0 0) (600 + k) := by
      apply List.map_congr_left
      intro k hk
      rw [List.mem_range] at hk
      exact hb _ (by omega) (by omega)
    rw [hmap]
    exact hsum

theorem scenarioNull_header_valid : validHeaderAt scenarioNullImage 600 := by
  refine ⟨by rw [length_scenarioNull]; decide,
    by simp only [hasAnchorSig, byteAt_scenarioNull]; decide,
    by simp only [regionInside, byteAt_scenarioNull, length_scenarioNull]; decide, ?_⟩
  unfold headerChecksum
  rw [byteSum_drop_take _ _ _ (by simp only [byteAt_scenarioNull, length_scenarioNull]; decide)]
  simp only [byteAt_scenarioNull]
  decide

/-- C12 as stated fails.  In the image built as the claim says (pointer 4 at
512 + 24, "PCIR" at 512 + 28, valid header at 600, a BIOSDATA version 1 token
and a NOP token) the code looks for "PCIR" at 512 + 4, finds none and reports
ROM base 0, not 512.  In the image with pointer 28 and a NOP token of
`dataPointer = 0`, `dataSize = 0`, the second block ends with the "no data"
marker instead of the NOP marker.  In the image with pointer 28 whose BIOSDATA
token has `dataPointer = 0` (the payload bytes 0 .. 17 are inside the buffer and
`dataSize = 18` suffices), the first block holds the "no data" marker instead
of the decoded BIOS fields. -/
theorem C12_scenario_as_stated_fails :
    ((scenarioImage 4 1 1).length = 2048 ∧
      byteAt (scenarioImage 4 1 1) 512 = 0x55 ∧ byteAt (scenarioImage 4 1 1) 513 = 0xAA ∧
      pcirPointer (scenarioImage 4 1 1) 512 = 4 ∧
      byteAt (scenarioImage 4 1 1) 540 = 0x50 ∧ byteAt (scenarioImage 4 1 1) 541 = 0x43 ∧
      byteAt (scenarioImage 4 1 1) 542 = 0x49 ∧ byteAt (scenarioImage 4 1 1) 543 = 0x52 ∧
      validHeaderAt (scenarioImage 4 1 1) 600 ∧
      byteAt (scenarioImage 4 1 1) 610 = 2 ∧
      tokenAt (scenarioImage 4 1 1) 612 = ⟨0x42, 1, 18, 700⟩ ∧
      tokenAt (scenarioImage 4 1 1) 618 = ⟨0x4E, 0, 1, 1⟩ ∧
      findPCIExpansionROM (scenarioImage 4 1 1) = .ok 0 ∧
      (parse 17 "scenario.rom" (scenarioImage 4 1 1)).report.take 6 =
        [Out.banner, Out.bannerRule, Out.file "scenario.rom", Out.size 2048,
         Out.pciRomOffset 0, Out.bitFound 600]) ∧
    (tokenAt (scenarioImage 28 0 0) 618 = ⟨0x4E, 0, 0, 0⟩ ∧
      (parse 17 "scenario.rom" (scenarioImage 28 0 0)).result = .ok true ∧
      (parse 17 "scenario.rom" (scenarioImage 28 0 0)).report.drop 16 =
        [Out.tokenTitle 1 "BIT_TOKEN_NOP" 0x4E, Out.dataVersion 0, Out.dataSize 0,
         Out.dataPointer 0, Out.noData, Out.newline]) ∧
    (scenarioNullImage.length = 2048 ∧
      byteAt scenarioNullImage 512 = 0x55 ∧ byteAt scenarioNullImage 513 = 0xAA ∧
      pcirPointer scenarioNullImage 512 = 28 ∧
      byteAt scenarioNullImage 540 = 0x50 ∧ byteAt scenarioNullImage 541 = 0x43 ∧
      byteAt scenarioNullImage 542 = 0x49 ∧ byteAt scenarioNullImage 543 = 0x52 ∧
      validHeaderAt scenarioNullImage 600 ∧
      byteAt scenarioNullImage 610 = 2 ∧
      tokenAt scenarioNullImage 612 = ⟨0x42, 1, 18, 0⟩ ∧
      tokenAt scenarioNullImage 618 = ⟨0x4E, 0, 1, 1⟩ ∧
      findPCIExpansionROM scenarioNullImage = .ok 512 ∧
      findBITHeader scenarioNullImage 512 = .ok 600 ∧
      (parse 17 "scenario.rom" scenarioNullImage).result = .ok true ∧
      (parse 17 "scenario.rom" scenarioNullImage).report.drop 9 =
        [Out.tokenTitle 0 "BIT_TOKEN_BIOSDATA" 0x42, Out.dataVersion 1, Out.dataSize 18,
         Out.dataPointer 0, Out.noData, Out.newline,
         Out.tokenTitle 1 "BIT_TOKEN_NOP" 0x4E, Out.dataVersion 0, Out.dataSize 1,
         Out.dataPointer 1, Out.nop, Out.newline]) := by
  have hmax : ∀ a b c, (scenarioImage a b c).length < 2 ^ 64 := by
    intro a b c; rw [length_scenario]; decide
  have hmaxN : scenarioNullImage.length < 2 ^ 64 := by rw [length_scenarioNull]; decide
  have ho4 : findPCIExpansionROM (scenarioImage 4 1 1) = .ok 0 :=
    findPCIExpansionROM_default _ (by intro h; simpa [h] using length_scenario 4 1 1)
      scenario_literal_no_match
  have hh4 : findBITHeader (scenarioImage 4 1 1) 0 = .ok 600 :=
    findBITHeader_first_valid _ 0 600 (hmax _ _ _) (by decide) (scenario_header_valid _ _ _)
      (fun j _ h2 => Or.inl (scenario_literal_no_anchor j h2))
  have ho0 : findPCIExpansionROM (scenarioImage 28 0 0) = .ok 512 :=
    findPCIExpansionROM_first_match _ 1 (hmax _ _ _) (by rw [length_scenario]; decide)
      (by simp only [pciMatch, pcirAt, pcirPointer, byteAt_scenario, length_scenario]; decide)
      (fun t ht => by
        have : t = 0 := by omega
        subst this
        simp only [pciMatch, pcirAt, pcirPointer, byteAt_scenario, length_scenario]
        decide)
  have hh0 : findBITHeader (scenarioImage 28 0 0) 512 = .ok 600 :=
    findBITHeader_first_valid _ 512 600 (hmax _ _ _) (by decide) (scenario_header_valid _ _ _)
      (fun j h1 h2 => Or.inl (by
        revert j
        simp only [hasAnchorSig, byteAt_scenario]
        decide))
  have ht0 : tokenAt (scenarioImage 28 0 0) (tokenOffsetOf (scenarioImage 28 0 0) 600 0) =
      ⟨0x42, 1, 18, 700⟩ := by
    simp only [tokenAt, tokenOffsetOf, byteAt_scenario]; decide
  have ht1 : tokenAt (scenarioImage 28 0 0) (tokenOffsetOf (scenarioImage 28 0 0) 600 1) =
      ⟨0x4E, 0, 0, 0⟩ := by
    simp only [tokenAt, tokenOffsetOf, byteAt_scenario]; decide
  have hp0 := tokenPayload_biosData_v1 17 (scenarioImage 28 0 0) 700 18 (by decide) (by decide)
    (by decide) (by rw [length_scenario]; decide)
  have hp1 := tokenPayload_no_data 17 (scenarioImage 28 0 0) ⟨0x4E, 0, 0, 0⟩ (Or.inl rfl)
  have hpar0 := parse_two_tokens 17 "scenario.rom" _ 512 600 (hmax _ _ _) ho0 hh0
    (scenario_header_valid _ _ _).1 (by simp only [byteAt_scenario]; decide)
    (by simp only [tokenOffsetOf, byteAt_scenario, length_scenario]; decide)
    (by rw [ht0, hp0]) (by rw [ht1, hp1])
  rw [ht0, ht1, hp0, hp1] at hpar0
  have hoN : findPCIExpansionROM scenarioNullImage = .ok 512 :=
    findPCIExpansionROM_first_match _ 1 hmaxN (by rw [length_scenarioNull]; decide)
      (by
        simp only [pciMatch, pcirAt, pcirPointer, byteAt_scenarioNull, length_scenarioNull]
        decide)
      (fun t ht => by
        have : t = 0 := by omega
        subst this
        simp only [pciMatch, pcirAt, pcirPointer, byteAt_scenarioNull, length_scenarioNull]
        decide)
  have hhN : findBITHeader scenarioNullImage 512 = .ok 600 :=
    findBITHeader_first_valid _ 512 600 hmaxN (by decide) scenarioNull_header_valid
      (fun j h1 h2 => Or.inl (by
        revert j
        simp only [hasAnchorSig, byteAt_scenarioNull]
        decide))
  have htN0 : tokenAt scenarioNullImage (tokenOffsetOf scenarioNullImage 600 0) =
      ⟨0x42, 1, 18, 0⟩ := by
    simp only [tokenAt, tokenOffsetOf, byteAt_scenarioNull]; decide
  have htN1 : tokenAt scenarioNullImage (tokenOffsetOf scenarioNullImage 600 1) =
      ⟨0x4E, 0, 1, 1⟩ := by
    simp only [tokenAt, tokenOffsetOf, byteAt_scenarioNull]; decide
  have hpN0 := tokenPayload_no_data 17 scenarioNullImage ⟨0x42, 1, 18, 0⟩ (Or.inl rfl)
  have hpN1 := tokenPayload_nop 17 scenarioNullImage 0 1 1 (by decide) (by decide)
  have hparN := parse_two_tokens 17 "scenario.rom" _ 512 600 hmaxN hoN hhN
    scenarioNull_header_valid.1 (by simp only [byteAt_scenarioNull]; decide)
    (by simp only [tokenOffsetOf, byteAt_scenarioNull, length_scenarioNull]; decide)
    (by rw [htN0, hpN0]) (by rw [htN1, hpN1])
  rw [htN0, htN1, hpN0, hpN1] at hparN
  refine ⟨⟨length_scenario _ _ _, by simp only [byteAt_scenario]; decide,
    by simp only [byteAt_scenario]; decide, by simp only [pcirPointer, byteAt_scenario]; decide,
    by simp only [byteAt_scenario]; decide, by simp only [byteAt_scenario]; decide,
    by simp only [byteAt_scenario]; decide, by simp only [byteAt_scenario]; decide,
    scenario_header_valid _ _ _,
    by simp only [byteAt_scenario]; decide, by simp only [tokenAt, byteAt_scenario]; decide,
    by simp only [tokenAt, byteAt_scenario]; decide, ho4, ?_⟩,
    ⟨by simp only [tokenAt, byteAt_scenario]; decide, by rw [hpar0], ?_⟩,
    ⟨length_scenarioNull, by simp only [byteAt_scenarioNull]; decide,
    by simp only [byteAt_scenarioNull]; decide,
    by simp only [pcirPointer, byteAt_scenarioNull]; decide,
    by simp only [byteAt_scenarioNull]; decide, by simp only [byteAt_scenarioNull]; decide,
    by simp only [byteAt_scenarioNull]; decide, by simp only [byteAt_scenarioNull]; decide,
    scenarioNull_header_valid,
    by simp only [byteAt_scenarioNull]; decide,
    by simp only [tokenAt, byteAt_scenarioNull]; decide,
    by simp only [tokenAt, byteAt_scenarioNull]; decide, hoN, hhN, by rw [hparN], ?_⟩⟩
  · rw [parse_of_header 17 "scenario.rom" _ 0 600 ho4 hh4 (scenario_header_valid _ _ _).1
      (hmax _ _ _)]
    simp [reportHeader, reportHead, length_scenario]
  · rw [hpar0]
    rfl
  · rw [hparN]
    rfl

/-! ## dumpHex -/

theorem dumpHexLoop_groups (pfx : String) :
    ∀ (m : Nat) (data : List Byte) (i : Nat), 0 < i % 16 → i % 16 + m ≤ 16 →
      dumpHexLoop pfx data i =
        (data.take m).map hexGroup ++ dumpHexLoop pfx (data.drop m) (i + m) := by
  intro m
  induction m with
  | zero => intro data i _ _; simp
  | succ m ih =>
    intro data i hpos hle
    cases data with
    | nil => simp [dumpHexLoop]
    | cons b rest =>
      have h1 : ¬ (i % 16 = 0 ∧ i > 0) := by omega
      have h2 : ¬ i % 16 = 0 := by omega
      simp only [dumpHexLoop, if_neg h1, if_neg h2, List.nil_append, List.take_succ_cons,
        List.map_cons, List.drop_succ_cons, List.cons_append, List.singleton_append]
      congr 1
      rcases Nat.eq_zero_or_pos m with hm | hm
      · subst hm; simp
      · rw [ih rest (i + 1) (by omega) (by omega)]
        congr 2
        omega

theorem dumpHexLoop_line (pfx : String) (b : Byte) (rest : List Byte) (i : Nat)
    (hi : i % 16 = 0) :
    dumpHexLoop pfx (b :: rest) i =
      (if 0 < i then ["\n"] else []) ++ pfx :: ((b :: rest).take 16).map hexGroup ++
        dumpHexLoop pfx ((b :: rest).drop 16) (i + 16) := by
  have hrest := dumpHexLoop_groups pfx 15 rest (i + 1) (by omega) (by omega)
  simp only [dumpHexLoop, if_pos hi, hi, true_and, List.take_succ_cons, List.map_cons,
    List.drop_succ_cons, hrest]
  have e : i + 1 + 15 = i + 16 := by omega
  rw [e]
  simp only [gt_iff_lt, if_true, List.nil_append, List.append_assoc, List.singleton_append,
    List.cons_append]

theorem dumpHexLoop_lines (pfx : String) (data : List Byte) :
    ∀ (j k0 : Nat), (data.length + 15) / 16 - k0 = j →
      dumpHexLoop pfx (data.drop (16 * k0)) (16 * k0) =
        (List.range' k0 j).flatMap fun k =>
          (if 0 < k then ["\n"] else []) ++ pfx :: (hexLine data k).map hexGroup := by
  intro j
  induction j with
  | zero =>
    intro k0 h
    have : data.length ≤ 16 * k0 := by omega
    rw [List.drop_eq_nil_of_le this]
    simp [dumpHexLoop]
  | succ j ih =>
    intro k0 h
    have hlt : 16 * k0 < data.length := by omega
    rw [List.drop_eq_getElem_cons hlt, dumpHexLoop_line pfx _ _ _ (by omega),
      ← List.drop_eq_getElem_cons hlt, List.drop_drop]
    have e' : 16 * k0 + 16 = 16 * (k0 + 1) := by omega
    rw [e', ih (k0 + 1) (by omega), List.range'_succ, List.flatMap_cons]
    have hc : (0 < 16 * k0) = (0 < k0) := by
      apply propext
      constructor <;> intro h <;> omega
    simp only [hexLine, hc, List.append_assoc, List.cons_append]

theorem hexLine_flatMap (data : List Byte) :
    ∀ (j k0 : Nat), (data.length + 15) / 16 - k0 = j →
      (List.range' k0 j).flatMap (hexLine data) = data.drop (16 * k0) := by
  intro j
  induction j with
  | zero =>
    intro k0 h
    have : data.length ≤ 16 * k0 := by omega
    rw [List.drop_eq_nil_of_le this]
    rfl
  | succ j ih =>
    intro k0 h
    rw [List.range'_succ, List.flatMap_cons, ih (k0 + 1) (by omega)]
    unfold hexLine
    have e : 16 * (k0 + 1) = 16 * k0 + 16 := by omega
    rw [e, ← List.drop_drop, List.take_append_drop]

theorem regroup_lines {α : Type} (nl : List α) (X : Nat → List α) :
    ∀ L : Nat, 1 ≤ L →
      ((List.range L).flatMap fun k => (if 0 < k then nl else []) ++ X k) ++ nl =
        (List.range L).flatMap fun k => X k ++ nl := by
  intro L
  induction L with
  | zero => intro h; omega
  | succ L ih =>
    intro _
    rcases Nat.eq_zero_or_pos L with h0 | hpos
    · subst h0
      simp [List.range_succ]
    · have := ih hpos
      rw [List.range_succ, List.flatMap_append, List.flatMap_append, ← this]
      simp [hpos]

theorem flatten_of_flatMap {α β : Type} (f : α → List (List β)) :
    ∀ l : List α, (l.flatMap f).flatten = l.flatMap fun a => (f a).flatten := by
  intro l
  induction l with
  | nil => rfl
  | cons a t ih => simp only [List.flatMap_cons, List.flatten_append, ih]

theorem hexValue_hexDigit : ∀ d : Fin 16, hexValue (hexDigit d.val) = some d.val := by
  decide

theorem hexDigit_lower : ∀ d : Fin 16, hexDigit d.val ∈ lowerHexDigits := by
  decide

theorem readGroup_groupChars (b : Byte) : readGroup (groupChars b) = some b.val := by
  have h1 := hexValue_hexDigit ⟨b.val / 16, by omega⟩
  have h2 := hexValue_hexDigit ⟨b.val % 16, by omega⟩
  simp only [] at h1 h2
  simp only [readGroup, groupChars, h1, h2, if_true, Option.some.injEq]
  omega

/-- C17: for a byte sequence of length `n ≥ 1`, the text written by `dumpHex`
is `⌈n / 16⌉` lines, each made of the prefix, then its groups, then a newline;
every line but the last holds 16 groups, the last holds `n - 16 (⌈n / 16⌉ - 1)`;
a group is two lowercase hexadecimal digits and a space; reading the groups
back in order gives the original bytes. -/
theorem C17_dumpHex_format (data : List Byte) (pfx : String) (hn : 1 ≤ data.length) :
    (String.join (dumpHex data pfx)).data =
      ((List.range ((data.length + 15) / 16)).flatMap fun k =>
        pfx.data ++ (hexLine data k).flatMap groupChars ++ ['\n']) ∧
    (∀ k, k + 1 < (data.length + 15) / 16 → (hexLine data k).length = 16) ∧
    (hexLine data ((data.length + 15) / 16 - 1)).length =
      data.length - 16 * ((data.length + 15) / 16 - 1) ∧
    (∀ b : Byte, (hexGroup b).data = groupChars b ∧
      hexDigit (b.val / 16) ∈ lowerHexDigits ∧ hexDigit (b.val % 16) ∈ lowerHexDigits ∧
      readGroup (groupChars b) = some b.val) ∧
    ((List.range ((data.length + 15) / 16)).flatMap (hexLine data)).map
      (fun b => readGroup (groupChars b)) = data.map fun b => some b.val := by
  have hL : 1 ≤ (data.length + 15) / 16 := by omega
  refine ⟨?_, ?_, ?_, ?_, ?_⟩
  · have hpieces := dumpHexLoop_lines pfx data ((data.length + 15) / 16) 0 (by omega)
    simp only [Nat.mul_zero, List.drop_zero] at hpieces
    rw [String.data_join, dumpHex, hpieces, ← List.range_eq_range']
    have hchars : ∀ k, (((if 0 < k then ["\n"] else []) ++
        pfx :: (hexLine data k).map hexGroup).map String.data).flatten =
        (if 0 < k then ['\n'] else []) ++ (pfx.data ++ (hexLine data k).flatMap groupChars) := by
      intro k
      have hg : ((hexLine data k).map hexGroup).map String.data =
          (hexLine data k).map groupChars := by
        rw [List.map_map]; rfl
      by_cases hk : 0 < k
      · simp only [hk, if_true, List.map_append, List.map_cons, List.map_nil,
          List.flatten_append, List.flatten_cons, List.flatten_nil, hg, List.flatMap]
        rfl
      · simp only [hk, if_false, List.nil_append, List.map_cons, List.flatten_cons, hg,
          List.flatMap]
    rw [List.map_append, List.flatten_append, List.map_flatMap, flatten_of_flatMap]
    simp only [hchars]
    exact regroup_lines ['\n'] (fun k => pfx.data ++ (hexLine data k).flatMap groupChars) _ hL
  · intro k hk
    unfold hexLine
    rw [List.length_take, List.length_drop]
    omega
  · unfold hexLine
    rw [List.length_take, List.length_drop]
    omega
  · intro b
    exact ⟨rfl, hexDigit_lower ⟨b.val / 16, by omega⟩, hexDigit_lower ⟨b.val % 16, by omega⟩,
      readGroup_groupChars b⟩
  · have := hexLine_flatMap data ((data.length + 15) / 16) 0 (by omega)
    rw [← List.range_eq_range'] at this
    rw [this]
    simp [readGroup_groupChars]

/-- C17 witness: 18 bytes with prefix "> " give one line of 16 groups and one
line of 2 groups. -/
theorem C17_dumpHex_format_witness :
    (String.join (dumpHex eighteenBytes "> ")).data =
      "> 00 01 02 03 04 05 06 07 08 09 0a 0b 0c 0d 0e 0f \n> 10 11 \n".data :=
  (C17_dumpHex_format eighteenBytes "> " (by decide)).1.trans (by decide)

end NVIDIAROMParser
